import Mathlib

/-!
Verification development for the bounded-concurrency task execution engine
of the `common-infra` repository: the rate-limited batch dispatcher
(`batch/batch.go`) and the channel worker pool (`stream/stream.go`).

The Go code is shallowly embedded.  Concurrency is made explicit through an
adversarial schedule (`Sched`): at each iteration of the dispatch loop the
schedule decides which in-flight handler invocations complete (and in which
order), whether external cancellation of the governing context has become
visible, and whether the rate limiter's blocking wait fails (which in Go can
only happen when the derived context is cancelled while waiting).  Handler
behaviour is a function from the item's position and value to a result:
return success, return an error value, or raise a panic.
-/

/-- Go `error` values as they are built by the dispatcher:
`base` is an arbitrary caller-supplied error, `itemWrap` models
`fmt.Errorf("item %d failed: %w", index, err)`, `rateWrap` models
`fmt.Errorf("rate limiter error at index %d: %w", index, err)`, and
`batchWrap` models `fmt.Errorf("batch finished with %d error(s), first: %w",
len(errs), errs[0])`. -/
inductive GoErr where
  | base (code : Nat)
  | itemWrap (idx : Nat) (inner : GoErr)
  | rateWrap (idx : Nat) (inner : GoErr)
  | batchWrap (count : Nat) (first : GoErr)
deriving DecidableEq, Repr

/-- Result of one handler invocation: normal return with no error, normal
return with an error value, or an uncontrolled fault (panic). -/
inductive HRes where
  | ok
  | fail (e : GoErr)
  | panicked
deriving DecidableEq, Repr

/-- `rate.Limit`: either the sentinel `rate.Inf` or a finite positive rate.
Only the inf/finite distinction is behaviourally relevant to `Execute`. -/
inductive RateLimitVal where
  | inf
  | pos (rps : Int)
deriving DecidableEq, Repr

/-- `BatchConfig` from `batch/batch.go`. -/
structure BatchConfig where
  Concurrency : Int
  RateLimit : RateLimitVal
  Burst : Int
  IgnoreError : Bool
deriving DecidableEq, Repr

/-- The default configuration built by `NewBatchExecutor`:
`Concurrency: 10, RateLimit: rate.Inf, Burst: 1, IgnoreError: false`. -/
def defaultBatchConfig : BatchConfig :=
  { Concurrency := 10, RateLimit := RateLimitVal.inf, Burst := 1, IgnoreError := false }

/-- `WithConcurrency(n)`: sets `Concurrency` only when `n > 0`. -/
def WithConcurrency (n : Int) : BatchConfig → BatchConfig :=
  fun c => if 0 < n then { c with Concurrency := n } else c

/-- `WithRateLimit(rps)`: sets a finite rate only when `rps > 0`. -/
def WithRateLimit (rps : Int) : BatchConfig → BatchConfig :=
  fun c => if 0 < rps then { c with RateLimit := RateLimitVal.pos rps } else c

/-- `WithBurst(n)`: sets `Burst` only when `n > 0`. -/
def WithBurst (n : Int) : BatchConfig → BatchConfig :=
  fun c => if 0 < n then { c with Burst := n } else c

/-- `WithIgnoreError(ignore)`: always sets the error policy. -/
def WithIgnoreError (b : Bool) : BatchConfig → BatchConfig :=
  fun c => { c with IgnoreError := b }

/-- The published option constructors of the package, as an inductive so that
we can quantify over every option value a caller can build from them. -/
inductive Opt where
  | withConcurrency (n : Int)
  | withRateLimit (rps : Int)
  | withBurst (n : Int)
  | withIgnoreError (b : Bool)
deriving DecidableEq, Repr

/-- Applying one published option to a configuration. -/
def applyOpt : Opt → BatchConfig → BatchConfig
  | Opt.withConcurrency n, c => WithConcurrency n c
  | Opt.withRateLimit rps, c => WithRateLimit rps c
  | Opt.withBurst n, c => WithBurst n c
  | Opt.withIgnoreError b, c => WithIgnoreError b c

/-- `NewBatchExecutor(opts...)`: the default configuration with every option
applied in order.  The executor value holds nothing but this configuration. -/
def NewBatchExecutor (opts : List Opt) : BatchConfig :=
  opts.foldl (fun c o => applyOpt o c) defaultBatchConfig

/-- Whether `Execute` constructs a rate limiter:
`b.config.RateLimit != rate.Inf`. -/
def limiterOn (cfg : BatchConfig) : Bool :=
  match cfg.RateLimit with
  | RateLimitVal.inf => false
  | RateLimitVal.pos _ => true

/-- The concurrency limit handed to `g.SetLimit`, as a natural number (the
claims are stated for limits ≥ 1, where this coincides with the Go int). -/
def limitOf (cfg : BatchConfig) : Nat :=
  cfg.Concurrency.toNat

/-- Observable state of one run of `Execute`.
`pending` are invocations spawned via `g.Go` that have not yet completed,
each carrying the result its handler will produce; `errs` is the
collect-and-continue accumulator (`errs` in the Go code, appended under
`errLock`); `firstErr` is the first error recorded by the errgroup (fail-fast
mode); `dispatched` lists the indices passed to `g.Go`, in dispatch order;
`panicLog` records the indices whose recovered panic was logged;
`limiterMade` records whether a `rate.Limiter` was constructed;
`limiterAbort` records the early `return` taken when `limiter.Wait`
fails, before `g.Wait` is ever reached. -/
structure ExecState where
  pending : List (Nat × HRes)
  errs : List GoErr
  firstErr : Option GoErr
  parentCancelled : Bool
  dispatched : List Nat
  panicLog : List Nat
  limiterMade : Bool
  limiterAbort : Option (Nat × GoErr)
deriving DecidableEq, Repr

/-- The state in which the empty-input path returns: nothing constructed. -/
def emptyExecState : ExecState :=
  { pending := [], errs := [], firstErr := none, parentCancelled := false,
    dispatched := [], panicLog := [], limiterMade := false, limiterAbort := none }

/-- State after step 1 of `Execute` (errgroup and limiter initialisation). -/
def initExecState (cfg : BatchConfig) : ExecState :=
  { emptyExecState with limiterMade := limiterOn cfg }

/-- The derived group context is cancelled iff the parent context was
cancelled or the errgroup recorded a returned failure (fail-fast). -/
def ctxCancelled (st : ExecState) : Bool :=
  st.parentCancelled || st.firstErr.isSome

/-- An adversarial schedule resolving the run's nondeterminism.
`completions i` names positions in `pending` that complete (in that order)
just before the loop's context check for item `i`; `pCancelAt i` says whether
external cancellation of the parent context has become visible by that check;
`limiterFail i` is the outcome of `limiter.Wait` while admitting item `i`
(`some e` models the wait being cancelled mid-block and returning error `e`);
`waitCompletions` orders completions during the final `g.Wait`. -/
structure Sched where
  completions : Nat → List Nat
  pCancelAt : Nat → Bool
  limiterFail : Nat → Option GoErr
  waitCompletions : List Nat

/-- Effect of one spawned invocation completing with result `r` for the item
at `idx`: a panic is recovered and logged; a returned error is either
appended (wrapped with its index) to the accumulator under the lock
(collect-and-continue) or handed to the errgroup, which keeps only the first
(fail-fast); a nil return does nothing. -/
def processResult (cfg : BatchConfig) (st : ExecState) (idx : Nat) (r : HRes) : ExecState :=
  match r with
  | HRes.ok => st
  | HRes.panicked => { st with panicLog := st.panicLog ++ [idx] }
  | HRes.fail e =>
      if cfg.IgnoreError then
        { st with errs := st.errs ++ [GoErr.itemWrap idx e] }
      else
        match st.firstErr with
        | none => { st with firstErr := some e }
        | some _ => st

/-- Complete the pending invocation at position `p` of the pending list
(no-op when `p` is out of range). -/
def completeAt (cfg : BatchConfig) (st : ExecState) (p : Nat) : ExecState :=
  match st.pending.get? p with
  | none => st
  | some q => processResult cfg { st with pending := st.pending.eraseIdx p } q.1 q.2

/-- Complete a schedule-chosen list of pending invocations, in order. -/
def completeMany (cfg : BatchConfig) (st : ExecState) (ps : List Nat) : ExecState :=
  ps.foldl (completeAt cfg) st

/-- Complete the `n` oldest pending invocations (fewer if fewer remain). -/
def drainN (cfg : BatchConfig) : Nat → ExecState → ExecState
  | 0, st => st
  | n + 1, st =>
      match st.pending with
      | [] => st
      | q :: rest => drainN cfg n (processResult cfg { st with pending := rest } q.1 q.2)

/-- `g.Go` blocking on the concurrency limit: before a new invocation may
start, enough pending ones must complete that fewer than `limit` remain. -/
def drainToLimit (cfg : BatchConfig) (limit : Nat) (st : ExecState) : ExecState :=
  if st.pending.length < limit then st
  else drainN cfg (st.pending.length + 1 - limit) st

/-- `g.Wait()`: every spawned invocation completes before it returns; the
schedule orders some completions, the rest complete oldest-first. -/
def gWait (cfg : BatchConfig) (sched : Sched) (st : ExecState) : ExecState :=
  let st1 := completeMany cfg st sched.waitCompletions
  drainN cfg st1.pending.length st1

/-- State at the loop's context check for item `i`: the schedule's chosen
completions have landed and external cancellation may have become visible. -/
def loopCheck (cfg : BatchConfig) (sched : Sched) (i : Nat) (st : ExecState) : ExecState :=
  let st1 := completeMany cfg st (sched.completions i)
  { st1 with parentCancelled := st1.parentCancelled || sched.pCancelAt i }

/-- `g.Go` for item `i` with value `v`: block until fewer than the limit are
in flight, then spawn the invocation (its eventual result is
`handler i v`). -/
def loopSpawn {T : Type} (cfg : BatchConfig) (handler : Nat → T → HRes)
    (i : Nat) (v : T) (st : ExecState) : ExecState :=
  let st3 := drainToLimit cfg (limitOf cfg) st
  { st3 with pending := st3.pending ++ [(i, handler i v)],
             dispatched := st3.dispatched ++ [i] }

/-- The dispatch loop of `Execute` (`for i, val := range items`), starting at
index `i` with the remaining items: schedule-chosen completions may land,
then the context check (step 3) may break, then the rate limiter (step 4) may
abort the whole call, then `g.Go` (step 5) blocks for a slot and spawns. -/
def dispatchLoop {T : Type} (cfg : BatchConfig) (sched : Sched)
    (handler : Nat → T → HRes) : Nat → List T → ExecState → ExecState
  | _, [], st => st
  | i, v :: rest, st =>
      let st2 := loopCheck cfg sched i st
      if ctxCancelled st2 then st2
      else
        match (if limiterOn cfg then sched.limiterFail i else none) with
        | some e => { st2 with limiterAbort := some (i, e) }
        | none =>
            dispatchLoop cfg sched handler (i + 1) rest (loopSpawn cfg handler i v st2)

/-- The value `Execute` returns after `g.Wait()` has completed: the
errgroup's error if there is one (`return err` — fail-fast), otherwise the
aggregate of the accumulator when `IgnoreError` is set and failures were
recorded (`fmt.Errorf("batch finished with %d error(s), first: %w", …)`),
otherwise nil. -/
def waitOutcome (cfg : BatchConfig) (st : ExecState) : Option GoErr :=
  match st.firstErr with
  | some e => some e
  | none =>
      if cfg.IgnoreError then
        match st.errs with
        | [] => none
        | f :: rest => some (GoErr.batchWrap (rest.length + 1) f)
      else none

/-- `Execute(ctx, items, handler)`.  Returns the Go return value (`none` is a
nil error) together with the final observable state.  Mirrors the source: the
empty-input early return; the loop; on a limiter failure at index `i` an
immediate `return fmt.Errorf(...)` that never reaches `g.Wait`; otherwise
`g.Wait` followed by the outcome selection above. -/
def Execute {T : Type} (cfg : BatchConfig) (sched : Sched) (items : List T)
    (handler : Nat → T → HRes) : Option GoErr × ExecState :=
  match items with
  | [] => (none, emptyExecState)
  | v :: vs =>
      let st := dispatchLoop cfg sched handler 0 (v :: vs) (initExecState cfg)
      match st.limiterAbort with
      | some ie => (some (GoErr.rateWrap ie.1 ie.2), st)
      | none =>
          let stw := gWait cfg sched st
          (waitOutcome cfg stw, stw)

/-!
The channel worker pool (`stream/stream.go`).  `Start` spawns N workers that
race to receive from the input channel; each worker loops, selecting between
the cancellation signal and the next receive, and runs each received item's
handler inside a recover boundary whose returned error is discarded
(`_ = s.handler(ctx, val)`).  We model the channel's contents as a finite
list (the channel is closed after them), the race as an adversarial
assignment of each item to the worker that receives it, and cooperative
cancellation as a per-worker count of receives after which the worker
observes `ctx.Done()`.
-/

/-- `Worker[T]` from `stream/stream.go`. -/
structure Worker (T : Type) where
  concurrency : Int
  handler : T → HRes

/-- `NewStreamWorker(concurrency, handler)`: a non-positive concurrency is
coerced to 1. -/
def NewStreamWorker {T : Type} (concurrency : Int) (handler : T → HRes) : Worker T :=
  if concurrency ≤ 0 then { concurrency := 1, handler := handler }
  else { concurrency := concurrency, handler := handler }

/-- Why a worker's loop ended: the channel was closed and drained, or the
cancellation signal fired. -/
inductive WExit where
  | drained
  | cancelled
deriving DecidableEq, Repr

/-- One worker's loop over the items it receives.  `cancelAfter = some k`
means the worker observes cancellation at its select after `k` receives;
`none` means the context never fires.  The handler runs inside the recover
boundary and its result — error, panic or success — is discarded, so the
loop continues unconditionally; the worker exits only on cancellation or on
a closed, drained channel.  Returns the exit reason and the receive count. -/
def runWorker {T : Type} (handler : T → HRes) : Option Nat → List T → WExit × Nat
  | some 0, _ => (WExit.cancelled, 0)
  | _, [] => (WExit.drained, 0)
  | c, v :: rest =>
      let _r := handler v
      let res := runWorker handler (c.map (fun k => k - 1)) rest
      (res.1, res.2 + 1)

/-- The sublist of channel items the racing receives hand to worker `wid`
(the assignment maps each item position to the receiving worker, reduced
modulo the worker count so every item is received by exactly one worker). -/
def assignedTo {T : Type} (n : Nat) (assign : Nat → Nat) (wid : Nat)
    (items : List T) : List T :=
  ((items.enum.filter (fun p => assign p.1 % n == wid)).map Prod.snd)

/-- `Start(ctx, ch)`: spawns one goroutine per unit of concurrency, then
`wg.Wait()`s for all of them.  The returned list is the exit record of every
worker — one entry per spawned worker, present exactly because `Start`
returns only after that worker's loop has ended. -/
def Start {T : Type} (w : Worker T) (cancel : Nat → Option Nat)
    (assign : Nat → Nat) (items : List T) : List (WExit × Nat) :=
  (List.range w.concurrency.toNat).map
    (fun wid => runWorker w.handler (cancel wid)
      (assignedTo w.concurrency.toNat assign wid items))

/-!  Support definitions used to state the properties.  -/

/-- A schedule in which nothing out of the ordinary happens: no external
cancellation, no limiter-wait failure, and all completions left to the
default oldest-first order. -/
def quietSched : Sched :=
  { completions := fun _ => [], pCancelAt := fun _ => false,
    limiterFail := fun _ => none, waitCompletions := [] }

/-- The contribution of one completed invocation to the collect-and-continue
accumulator: a returned failure, wrapped with its item index. -/
def failTag (q : Nat × HRes) : Option GoErr :=
  match q.2 with
  | HRes.fail e => some (GoErr.itemWrap q.1 e)
  | _ => none

/-- All accumulator contributions of a list of invocation results. -/
def failTags (l : List (Nat × HRes)) : List GoErr :=
  l.filterMap failTag

/-- The contribution of one completed invocation to the panic log: the item
index, when the invocation raised an uncontrolled fault. -/
def panicTag (q : Nat × HRes) : Option Nat :=
  match q.2 with
  | HRes.panicked => some q.1
  | _ => none

/-- All panic-log contributions of a list of invocation results. -/
def panicIdxs (l : List (Nat × HRes)) : List Nat :=
  l.filterMap panicTag

/-- The `(index, handler result)` pairs the dispatch loop would produce for
the given suffix of the input, starting at index `i`. -/
def resList {T : Type} (handler : Nat → T → HRes) : Nat → List T → List (Nat × HRes)
  | _, [] => []
  | i, v :: rest => (i, handler i v) :: resList handler (i + 1) rest

/-- The consecutive indices `i, i+1, …, i+m-1`. -/
def idxSeg : Nat → Nat → List Nat
  | _, 0 => []
  | i, m + 1 => i :: idxSeg (i + 1) m

/-- Replace an uncontrolled fault by a plain no-error return. -/
def depanicR : HRes → HRes
  | HRes.panicked => HRes.ok
  | r => r

/-- The handler with every uncontrolled fault replaced by a no-error
return. -/
def depanic {T : Type} (handler : Nat → T → HRes) : Nat → T → HRes :=
  fun i v => depanicR (handler i v)

/-- Erase panic information from a state: pending results lose their fault
flag and the panic log is cleared.  Two runs related by this map differ only
in recovered-and-logged faults. -/
def stripPanics (st : ExecState) : ExecState :=
  { st with pending := st.pending.map (fun q => (q.1, depanicR q.2)),
            panicLog := [] }

/-- Every pending invocation was dispatched for a real input position and
carries that position's handler result. -/
def pendOK {T : Type} (handler : Nat → T → HRes) (items : List T) (st : ExecState) : Prop :=
  ∀ q ∈ st.pending,
    ∃ v, items.get? q.1 = some v ∧ q.2 = handler q.1 v ∧ q.1 ∈ st.dispatched

/-- The errgroup's recorded error, if any, is exactly the error value some
dispatched item's handler returned — passed through without wrapping. -/
def firstOK {T : Type} (handler : Nat → T → HRes) (items : List T) (st : ExecState) : Prop :=
  ∀ e, st.firstErr = some e →
    ∃ i v, items.get? i = some v ∧ handler i v = HRes.fail e ∧ i ∈ st.dispatched

/-!  Basic preservation facts about the completion machinery.  -/

theorem processResult_pending (cfg : BatchConfig) (st : ExecState) (idx : Nat) (r : HRes) :
    (processResult cfg st idx r).pending = st.pending := by
  cases r with
  | ok => rfl
  | panicked => rfl
  | fail e =>
      simp only [processResult]
      split
      · rfl
      · cases h : st.firstErr <;> simp [h]

theorem processResult_dispatched (cfg : BatchConfig) (st : ExecState) (idx : Nat) (r : HRes) :
    (processResult cfg st idx r).dispatched = st.dispatched := by
  cases r with
  | ok => rfl
  | panicked => rfl
  | fail e =>
      simp only [processResult]
      split
      · rfl
      · cases h : st.firstErr <;> simp [h]

theorem processResult_parentCancelled (cfg : BatchConfig) (st : ExecState) (idx : Nat) (r : HRes) :
    (processResult cfg st idx r).parentCancelled = st.parentCancelled := by
  cases r with
  | ok => rfl
  | panicked => rfl
  | fail e =>
      simp only [processResult]
      split
      · rfl
      · cases h : st.firstErr <;> simp [h]

theorem processResult_limiterMade (cfg : BatchConfig) (st : ExecState) (idx : Nat) (r : HRes) :
    (processResult cfg st idx r).limiterMade = st.limiterMade := by
  cases r with
  | ok => rfl
  | panicked => rfl
  | fail e =>
      simp only [processResult]
      split
      · rfl
      · cases h : st.firstErr <;> simp [h]

theorem processResult_limiterAbort (cfg : BatchConfig) (st : ExecState) (idx : Nat) (r : HRes) :
    (processResult cfg st idx r).limiterAbort = st.limiterAbort := by
  cases r with
  | ok => rfl
  | panicked => rfl
  | fail e =>
      simp only [processResult]
      split
      · rfl
      · cases h : st.firstErr <;> simp [h]

theorem processResult_firstErr_mono (cfg : BatchConfig) (st : ExecState) (idx : Nat) (r : HRes)
    (e : GoErr) (h : st.firstErr = some e) :
    (processResult cfg st idx r).firstErr = some e := by
  cases r with
  | ok => exact h
  | panicked => exact h
  | fail e0 =>
      simp only [processResult]
      split
      · exact h
      · simp [h]

theorem processResult_firstErr_ignore (cfg : BatchConfig) (st : ExecState) (idx : Nat) (r : HRes)
    (hI : cfg.IgnoreError = true) :
    (processResult cfg st idx r).firstErr = st.firstErr := by
  cases r with
  | ok => rfl
  | panicked => rfl
  | fail e => simp [processResult, hI]

theorem completeAt_dispatched (cfg : BatchConfig) (st : ExecState) (p : Nat) :
    (completeAt cfg st p).dispatched = st.dispatched := by
  unfold completeAt
  cases h : st.pending.get? p with
  | none => rfl
  | some q => rw [processResult_dispatched]

theorem completeAt_parentCancelled (cfg : BatchConfig) (st : ExecState) (p : Nat) :
    (completeAt cfg st p).parentCancelled = st.parentCancelled := by
  unfold completeAt
  cases h : st.pending.get? p with
  | none => rfl
  | some q => rw [processResult_parentCancelled]

theorem completeAt_limiterMade (cfg : BatchConfig) (st : ExecState) (p : Nat) :
    (completeAt cfg st p).limiterMade = st.limiterMade := by
  unfold completeAt
  cases h : st.pending.get? p with
  | none => rfl
  | some q => rw [processResult_limiterMade]

theorem completeAt_limiterAbort (cfg : BatchConfig) (st : ExecState) (p : Nat) :
    (completeAt cfg st p).limiterAbort = st.limiterAbort := by
  unfold completeAt
  cases h : st.pending.get? p with
  | none => rfl
  | some q => rw [processResult_limiterAbort]

theorem completeAt_pending_sublist (cfg : BatchConfig) (st : ExecState) (p : Nat) :
    (completeAt cfg st p).pending.Sublist st.pending := by
  unfold completeAt
  cases h : st.pending.get? p with
  | none => exact List.Sublist.refl _
  | some q =>
      rw [processResult_pending]
      exact List.eraseIdx_sublist st.pending p

theorem completeAt_firstErr_mono (cfg : BatchConfig) (st : ExecState) (p : Nat)
    (e : GoErr) (h : st.firstErr = some e) :
    (completeAt cfg st p).firstErr = some e := by
  unfold completeAt
  cases hq : st.pending.get? p with
  | none => exact h
  | some q => exact processResult_firstErr_mono cfg _ q.1 q.2 e h

theorem completeAt_firstErr_ignore (cfg : BatchConfig) (st : ExecState) (p : Nat)
    (hI : cfg.IgnoreError = true) :
    (completeAt cfg st p).firstErr = st.firstErr := by
  unfold completeAt
  cases hq : st.pending.get? p with
  | none => rfl
  | some q => exact processResult_firstErr_ignore cfg _ q.1 q.2 hI

theorem completeMany_dispatched (cfg : BatchConfig) (ps : List Nat) (st : ExecState) :
    (completeMany cfg st ps).dispatched = st.dispatched := by
  induction ps generalizing st with
  | nil => rfl
  | cons p ps ih =>
      show (completeMany cfg (completeAt cfg st p) ps).dispatched = st.dispatched
      rw [ih, completeAt_dispatched]

theorem completeMany_parentCancelled (cfg : BatchConfig) (ps : List Nat) (st : ExecState) :
    (completeMany cfg st ps).parentCancelled = st.parentCancelled := by
  induction ps generalizing st with
  | nil => rfl
  | cons p ps ih =>
      show (completeMany cfg (completeAt cfg st p) ps).parentCancelled = st.parentCancelled
      rw [ih, completeAt_parentCancelled]

theorem completeMany_limiterMade (cfg : BatchConfig) (ps : List Nat) (st : ExecState) :
    (completeMany cfg st ps).limiterMade = st.limiterMade := by
  induction ps generalizing st with
  | nil => rfl
  | cons p ps ih =>
      show (completeMany cfg (completeAt cfg st p) ps).limiterMade = st.limiterMade
      rw [ih, completeAt_limiterMade]

theorem completeMany_limiterAbort (cfg : BatchConfig) (ps : List Nat) (st : ExecState) :
    (completeMany cfg st ps).limiterAbort = st.limiterAbort := by
  induction ps generalizing st with
  | nil => rfl
  | cons p ps ih =>
      show (completeMany cfg (completeAt cfg st p) ps).limiterAbort = st.limiterAbort
      rw [ih, completeAt_limiterAbort]

theorem completeMany_firstErr_mono (cfg : BatchConfig) (ps : List Nat) (st : ExecState)
    (e : GoErr) (h : st.firstErr = some e) :
    (completeMany cfg st ps).firstErr = some e := by
  induction ps generalizing st with
  | nil => exact h
  | cons p ps ih =>
      exact ih _ (completeAt_firstErr_mono cfg st p e h)

theorem completeMany_firstErr_ignore (cfg : BatchConfig) (ps : List Nat) (st : ExecState)
    (hI : cfg.IgnoreError = true) :
    (completeMany cfg st ps).firstErr = st.firstErr := by
  induction ps generalizing st with
  | nil => rfl
  | cons p ps ih =>
      show (completeMany cfg (completeAt cfg st p) ps).firstErr = st.firstErr
      rw [ih, completeAt_firstErr_ignore cfg st p hI]

theorem completeMany_pending_nil (cfg : BatchConfig) (ps : List Nat) (st : ExecState)
    (h : st.pending = []) : completeMany cfg st ps = st := by
  induction ps generalizing st with
  | nil => rfl
  | cons p ps ih =>
      show completeMany cfg (completeAt cfg st p) ps = st
      have hc : completeAt cfg st p = st := by
        unfold completeAt
        rw [h]
        rfl
      rw [hc]
      exact ih st h

theorem drainN_dispatched (cfg : BatchConfig) (n : Nat) (st : ExecState) :
    (drainN cfg n st).dispatched = st.dispatched := by
  induction n generalizing st with
  | zero => rfl
  | succ n ih =>
      show (drainN cfg (n + 1) st).dispatched = st.dispatched
      unfold drainN
      cases h : st.pending with
      | nil => rfl
      | cons q rest => rw [ih, processResult_dispatched]

theorem drainN_parentCancelled (cfg : BatchConfig) (n : Nat) (st : ExecState) :
    (drainN cfg n st).parentCancelled = st.parentCancelled := by
  induction n generalizing st with
  | zero => rfl
  | succ n ih =>
      unfold drainN
      cases h : st.pending with
      | nil => rfl
      | cons q rest => rw [ih, processResult_parentCancelled]

theorem drainN_limiterMade (cfg : BatchConfig) (n : Nat) (st : ExecState) :
    (drainN cfg n st).limiterMade = st.limiterMade := by
  induction n generalizing st with
  | zero => rfl
  | succ n ih =>
      unfold drainN
      cases h : st.pending with
      | nil => rfl
      | cons q rest => rw [ih, processResult_limiterMade]

theorem drainN_limiterAbort (cfg : BatchConfig) (n : Nat) (st : ExecState) :
    (drainN cfg n st).limiterAbort = st.limiterAbort := by
  induction n generalizing st with
  | zero => rfl
  | succ n ih =>
      unfold drainN
      cases h : st.pending with
      | nil => rfl
      | cons q rest => rw [ih, processResult_limiterAbort]

theorem drainN_firstErr_mono (cfg : BatchConfig) (n : Nat) (st : ExecState)
    (e : GoErr) (h : st.firstErr = some e) :
    (drainN cfg n st).firstErr = some e := by
  induction n generalizing st with
  | zero => exact h
  | succ n ih =>
      unfold drainN
      cases hp : st.pending with
      | nil => exact h
      | cons q rest => exact ih _ (processResult_firstErr_mono cfg _ q.1 q.2 e h)

theorem drainN_firstErr_ignore (cfg : BatchConfig) (n : Nat) (st : ExecState)
    (hI : cfg.IgnoreError = true) :
    (drainN cfg n st).firstErr = st.firstErr := by
  induction n generalizing st with
  | zero => rfl
  | succ n ih =>
      unfold drainN
      cases hp : st.pending with
      | nil => rfl
      | cons q rest => rw [ih, processResult_firstErr_ignore cfg _ q.1 q.2 hI]

theorem drainN_pending_length (cfg : BatchConfig) (n : Nat) (st : ExecState) :
    (drainN cfg n st).pending.length = st.pending.length - n := by
  induction n generalizing st with
  | zero => rfl
  | succ n ih =>
      unfold drainN
      cases hp : st.pending with
      | nil => simp [hp]
      | cons q rest =>
          rw [ih, processResult_pending]
          simp [hp, Nat.succ_sub_succ]

theorem gWait_pending (cfg : BatchConfig) (sched : Sched) (st : ExecState) :
    (gWait cfg sched st).pending = [] := by
  unfold gWait
  have h := drainN_pending_length cfg
    (completeMany cfg st sched.waitCompletions).pending.length
    (completeMany cfg st sched.waitCompletions)
  rw [Nat.sub_self] at h
  exact List.length_eq_zero.mp h

theorem gWait_dispatched (cfg : BatchConfig) (sched : Sched) (st : ExecState) :
    (gWait cfg sched st).dispatched = st.dispatched := by
  unfold gWait
  rw [drainN_dispatched, completeMany_dispatched]

theorem gWait_parentCancelled (cfg : BatchConfig) (sched : Sched) (st : ExecState) :
    (gWait cfg sched st).parentCancelled = st.parentCancelled := by
  unfold gWait
  rw [drainN_parentCancelled, completeMany_parentCancelled]

theorem gWait_limiterMade (cfg : BatchConfig) (sched : Sched) (st : ExecState) :
    (gWait cfg sched st).limiterMade = st.limiterMade := by
  unfold gWait
  rw [drainN_limiterMade, completeMany_limiterMade]

theorem gWait_limiterAbort (cfg : BatchConfig) (sched : Sched) (st : ExecState) :
    (gWait cfg sched st).limiterAbort = st.limiterAbort := by
  unfold gWait
  rw [drainN_limiterAbort, completeMany_limiterAbort]

theorem gWait_firstErr_mono (cfg : BatchConfig) (sched : Sched) (st : ExecState)
    (e : GoErr) (h : st.firstErr = some e) :
    (gWait cfg sched st).firstErr = some e := by
  unfold gWait
  exact drainN_firstErr_mono cfg _ _ e (completeMany_firstErr_mono cfg _ st e h)

theorem gWait_firstErr_ignore (cfg : BatchConfig) (sched : Sched) (st : ExecState)
    (hI : cfg.IgnoreError = true) :
    (gWait cfg sched st).firstErr = st.firstErr := by
  unfold gWait
  rw [drainN_firstErr_ignore cfg _ _ hI, completeMany_firstErr_ignore cfg _ st hI]

theorem gWait_pending_nil (cfg : BatchConfig) (sched : Sched) (st : ExecState)
    (h : st.pending = []) : gWait cfg sched st = st := by
  unfold gWait
  show drainN cfg (completeMany cfg st sched.waitCompletions).pending.length
      (completeMany cfg st sched.waitCompletions) = st
  rw [completeMany_pending_nil cfg _ st h, h]
  rfl

theorem Execute_cons_abort {T : Type} (cfg : BatchConfig) (sched : Sched) (v : T)
    (vs : List T) (handler : Nat → T → HRes) (ie : Nat × GoErr)
    (h : (dispatchLoop cfg sched handler 0 (v :: vs) (initExecState cfg)).limiterAbort = some ie) :
    Execute cfg sched (v :: vs) handler =
      (some (GoErr.rateWrap ie.1 ie.2),
       dispatchLoop cfg sched handler 0 (v :: vs) (initExecState cfg)) := by
  simp only [Execute]
  rw [h]

theorem Execute_cons_wait {T : Type} (cfg : BatchConfig) (sched : Sched) (v : T)
    (vs : List T) (handler : Nat → T → HRes)
    (h : (dispatchLoop cfg sched handler 0 (v :: vs) (initExecState cfg)).limiterAbort = none) :
    Execute cfg sched (v :: vs) handler =
      (waitOutcome cfg (gWait cfg sched (dispatchLoop cfg sched handler 0 (v :: vs) (initExecState cfg))),
       gWait cfg sched (dispatchLoop cfg sched handler 0 (v :: vs) (initExecState cfg))) := by
  simp only [Execute]
  rw [h]

theorem idxSeg_length : ∀ (i m : Nat), (idxSeg i m).length = m := by
  intro i m
  induction m generalizing i with
  | zero => rfl
  | succ m ih => simp [idxSeg, ih]

theorem idxSeg_eq_range_map : ∀ (m i : Nat), idxSeg i m = (List.range m).map (fun j => i + j) := by
  intro m
  induction m with
  | zero => intro i; rfl
  | succ m ih =>
      intro i
      rw [List.range_succ_eq_map]
      simp only [idxSeg, List.map_cons, List.map_map, Nat.add_zero, List.cons.injEq,
        true_and]
      rw [ih (i + 1)]
      apply List.map_congr_left
      intro j _
      simp only [Function.comp]
      omega

theorem idxSeg_zero (n : Nat) : idxSeg 0 n = List.range n := by
  rw [idxSeg_eq_range_map]
  simp

/-!  Claim C2 — concurrency coercion.  -/

/-- C2 counterexample: configuring `WithConcurrency 0` does not coerce the
effective concurrency to 1 — the option is ignored and the default 10
remains in force during `Execute` (the value handed to `g.SetLimit`). -/
theorem withConcurrency_nonpos_counterexample :
    (NewBatchExecutor [Opt.withConcurrency 0]).Concurrency = 10 ∧
    limitOf (NewBatchExecutor [Opt.withConcurrency 0]) ≠ 1 := by
  constructor
  · rfl
  · decide

/-- C2 (amended): `WithConcurrency n` with `n ≤ 0` leaves the configuration
unchanged (the previous value — the default 10 when nothing else set it —
remains in effect), and for every option list built from the published
constructors the concurrency in effect during `Execute` is ≥ 1. -/
theorem effective_concurrency_positive :
    (∀ (n : Int) (c : BatchConfig), n ≤ 0 → WithConcurrency n c = c) ∧
    (∀ opts : List Opt, 1 ≤ (NewBatchExecutor opts).Concurrency) := by
  constructor
  · intro n c hn
    unfold WithConcurrency
    simp [not_lt.mpr hn]
  · intro opts
    have key : ∀ (os : List Opt) (c : BatchConfig), 1 ≤ c.Concurrency →
        1 ≤ (os.foldl (fun c o => applyOpt o c) c).Concurrency := by
      intro os
      induction os with
      | nil => intro c h; exact h
      | cons o os ih =>
          intro c h
          apply ih
          cases o with
          | withConcurrency n =>
              by_cases hn : 0 < n
              · simp only [applyOpt, WithConcurrency, if_pos hn]
                omega
              · simpa only [applyOpt, WithConcurrency, if_neg hn] using h
          | withRateLimit rps =>
              by_cases hr : 0 < rps
              · simpa only [applyOpt, WithRateLimit, if_pos hr] using h
              · simpa only [applyOpt, WithRateLimit, if_neg hr] using h
          | withBurst n =>
              by_cases hn : 0 < n
              · simpa only [applyOpt, WithBurst, if_pos hn] using h
              · simpa only [applyOpt, WithBurst, if_neg hn] using h
          | withIgnoreError b =>
              simpa only [applyOpt, WithIgnoreError] using h
    exact key opts defaultBatchConfig (by decide)

/-- C2 witness: the amended theorem applied at concrete inputs. -/
theorem effective_concurrency_positive_witness :
    WithConcurrency (-3) defaultBatchConfig = defaultBatchConfig ∧
    1 ≤ (NewBatchExecutor
      [Opt.withConcurrency 0, Opt.withRateLimit 5, Opt.withIgnoreError true]).Concurrency :=
  ⟨effective_concurrency_positive.1 (-3) defaultBatchConfig (by decide),
   effective_concurrency_positive.2
     [Opt.withConcurrency 0, Opt.withRateLimit 5, Opt.withIgnoreError true]⟩

/-!  Claim C8 — empty input.  -/

/-- C8: `Execute` on an empty input sequence returns the no-error outcome for
every configuration, schedule and handler, with no rate limiter constructed,
no invocation dispatched and nothing pending. -/
theorem execute_empty_input {T : Type} (cfg : BatchConfig) (sched : Sched)
    (handler : Nat → T → HRes) :
    (Execute cfg sched ([] : List T) handler).1 = none ∧
    (Execute cfg sched ([] : List T) handler).2.limiterMade = false ∧
    (Execute cfg sched ([] : List T) handler).2.dispatched = [] ∧
    (Execute cfg sched ([] : List T) handler).2.pending = [] :=
  ⟨rfl, rfl, rfl, rfl⟩

/-!  Claim C9 — cancellation observed before any dispatch.  -/

/-- C9: when the governing context is already cancelled at the first
iteration's check — for every configuration, every non-empty input and every
handler, and whatever the limiter would have answered — `Execute` returns
the no-error outcome with zero items dispatched and nothing left in
flight: the pre-dispatch check precedes the rate-limiter wait and the
handler invocation. -/
theorem execute_pre_cancelled {T : Type} (cfg : BatchConfig) (sched : Sched)
    (items : List T) (handler : Nat → T → HRes)
    (hne : items ≠ []) (hc : sched.pCancelAt 0 = true) :
    (Execute cfg sched items handler).1 = none ∧
    (Execute cfg sched items handler).2.dispatched = [] ∧
    (Execute cfg sched items handler).2.pending = [] := by
  cases items with
  | nil => exact absurd rfl hne
  | cons v vs =>
      have hchk : loopCheck cfg sched 0 (initExecState cfg)
          = { initExecState cfg with parentCancelled := true } := by
        unfold loopCheck
        rw [completeMany_pending_nil cfg _ _ rfl]
        simp [hc, initExecState, emptyExecState]
      have hst : dispatchLoop cfg sched handler 0 (v :: vs) (initExecState cfg)
          = { initExecState cfg with parentCancelled := true } := by
        unfold dispatchLoop
        simp only [hchk]
        have hcc : ctxCancelled { initExecState cfg with parentCancelled := true } = true := by
          simp [ctxCancelled, initExecState, emptyExecState]
        rw [if_pos hcc]
      have hab : (dispatchLoop cfg sched handler 0 (v :: vs) (initExecState cfg)).limiterAbort
          = none := by rw [hst]; rfl
      have hE := Execute_cons_wait cfg sched v vs handler hab
      have hw : gWait cfg sched (dispatchLoop cfg sched handler 0 (v :: vs) (initExecState cfg))
          = { initExecState cfg with parentCancelled := true } := by
        rw [hst]
        exact gWait_pending_nil cfg sched _ rfl
      rw [hE, hw]
      refine ⟨?_, rfl, rfl⟩
      show waitOutcome cfg { initExecState cfg with parentCancelled := true } = none
      unfold waitOutcome
      cases h : cfg.IgnoreError <;> simp [initExecState, emptyExecState, h]

/-- C9 witness: a concrete pre-cancelled run. -/
theorem execute_pre_cancelled_witness :
    (Execute defaultBatchConfig
      { quietSched with pCancelAt := fun _ => true } [1, 2, 3]
      (fun i _ => HRes.fail (GoErr.base i))).1 = none ∧
    (Execute defaultBatchConfig
      { quietSched with pCancelAt := fun _ => true } [1, 2, 3]
      (fun i _ => HRes.fail (GoErr.base i))).2.dispatched = [] :=
  ⟨(execute_pre_cancelled defaultBatchConfig
      { quietSched with pCancelAt := fun _ => true } [1, 2, 3]
      (fun i _ => HRes.fail (GoErr.base i)) (by decide) rfl).1,
   (execute_pre_cancelled defaultBatchConfig
      { quietSched with pCancelAt := fun _ => true } [1, 2, 3]
      (fun i _ => HRes.fail (GoErr.base i)) (by decide) rfl).2.1⟩

/-!  Claim C1 — termination and quiescence on return.  -/

/-- C1 counterexample: a run in which the rate limiter's wait fails while
admitting item 1 (in Go: the caller cancels the governing context while the
dispatching thread is blocked in `limiter.Wait` and item 0's handler is still
running).  `Execute` returns the admission failure while the invocation it
spawned for item 0 has not finished — the early `return` skips `g.Wait`, so
not every spawned execution has finished by the time `Execute` returns. -/
theorem execute_leak_counterexample :
    (Execute { Concurrency := 2, RateLimit := RateLimitVal.pos 5, Burst := 1, IgnoreError := false }
        { quietSched with limiterFail := fun j => if j = 1 then some (GoErr.base 0) else none }
        [10, 20, 30] (fun _ _ => HRes.ok)).1 = some (GoErr.rateWrap 1 (GoErr.base 0)) ∧
    (Execute { Concurrency := 2, RateLimit := RateLimitVal.pos 5, Burst := 1, IgnoreError := false }
        { quietSched with limiterFail := fun j => if j = 1 then some (GoErr.base 0) else none }
        [10, 20, 30] (fun _ _ => HRes.ok)).2.pending = [(0, HRes.ok)] := by
  constructor
  · rfl
  · rfl

/-- C1 (amended): `Execute` always returns, and on every exit path other
than the rate-limiter admission-failure `return` — i.e. whenever the run did
not abort in `limiter.Wait` — every spawned execution has finished by the
time it returns; on the admission-failure path `Execute` returns the failure
tagged with the offending index immediately, without waiting for in-flight
executions. -/
theorem execute_quiesces_except_limiter_abort {T : Type} (cfg : BatchConfig)
    (sched : Sched) (items : List T) (handler : Nat → T → HRes) :
    ((Execute cfg sched items handler).2.limiterAbort = none →
        (Execute cfg sched items handler).2.pending = []) ∧
    (∀ i e, (Execute cfg sched items handler).2.limiterAbort = some (i, e) →
        (Execute cfg sched items handler).1 = some (GoErr.rateWrap i e)) := by
  cases items with
  | nil =>
      refine ⟨fun _ => rfl, fun i e h => ?_⟩
      exact absurd h (by simp [Execute, emptyExecState])
  | cons v vs =>
      cases hab : (dispatchLoop cfg sched handler 0 (v :: vs) (initExecState cfg)).limiterAbort with
      | some ie =>
          have hE := Execute_cons_abort cfg sched v vs handler ie hab
          rw [hE]
          refine ⟨fun h => ?_, fun i e h => ?_⟩
          · exact absurd (hab.symm.trans h) (by simp)
          · have : ie = (i, e) := by
              have h2 := hab.symm.trans h
              exact Option.some_injective _ h2
            rw [this]
      | none =>
          have hE := Execute_cons_wait cfg sched v vs handler hab
          rw [hE]
          refine ⟨fun _ => gWait_pending cfg sched _, fun i e h => ?_⟩
          rw [gWait_limiterAbort, hab] at h
          exact absurd h (by simp)

/-- C1 witness: the amended theorem applied to a concrete quiet run (all
spawned executions have finished on return) and to the concrete
admission-failure run (the returned value is the tagged limiter failure). -/
theorem execute_quiesces_witness :
    (Execute defaultBatchConfig quietSched [1, 2, 3] (fun _ _ => HRes.ok)).2.pending = [] ∧
    (Execute { Concurrency := 2, RateLimit := RateLimitVal.pos 5, Burst := 1, IgnoreError := false }
        { quietSched with limiterFail := fun j => if j = 1 then some (GoErr.base 1) else none }
        [10, 20, 30] (fun _ _ => HRes.ok)).1 = some (GoErr.rateWrap 1 (GoErr.base 1)) :=
  ⟨(execute_quiesces_except_limiter_abort defaultBatchConfig quietSched [1, 2, 3]
      (fun _ _ => HRes.ok)).1 rfl,
   (execute_quiesces_except_limiter_abort
      { Concurrency := 2, RateLimit := RateLimitVal.pos 5, Burst := 1, IgnoreError := false }
      { quietSched with limiterFail := fun j => if j = 1 then some (GoErr.base 1) else none }
      [10, 20, 30] (fun _ _ => HRes.ok)).2 1 (GoErr.base 1) rfl⟩

/-!  Claim C7 — the channel worker pool.  -/

theorem runWorker_handler_irrel {T : Type} (h1 h2 : T → HRes) :
    ∀ (l : List T) (c : Option Nat), runWorker h1 c l = runWorker h2 c l := by
  intro l
  induction l with
  | nil =>
      intro c
      cases c with
      | none => rfl
      | some k => cases k <;> rfl
  | cons v rest ih =>
      intro c
      cases c with
      | none => simp [runWorker, ih]
      | some k =>
          cases k with
          | zero => rfl
          | succ k => simp [runWorker, ih]

theorem runWorker_no_cancel {T : Type} (h : T → HRes) :
    ∀ l : List T, runWorker h none l = (WExit.drained, l.length) := by
  intro l
  induction l with
  | nil => rfl
  | cons v rest ih => simp [runWorker, ih]

theorem sum_map_ite_one (m : Nat) :
    ∀ N : Nat, m < N →
      ((List.range N).map (fun w => if m = w then (1 : Nat) else 0)).sum = 1 := by
  have hz : ∀ N : Nat, N ≤ m →
      ((List.range N).map (fun w => if m = w then (1 : Nat) else 0)).sum = 0 := by
    intro N
    induction N with
    | zero => intro _; rfl
    | succ N ih =>
        intro hle
        rw [List.range_succ]
        simp only [List.map_append, List.sum_append, List.map_cons, List.map_nil]
        rw [ih (by omega)]
        have : m ≠ N := by omega
        simp [this]
  intro N
  induction N with
  | zero => intro h; omega
  | succ N ih =>
      intro hlt
      rw [List.range_succ]
      simp only [List.map_append, List.sum_append, List.map_cons, List.map_nil]
      by_cases hm : m = N
      · rw [hz N (by omega)]
        simp [hm]
      · rw [ih (by omega)]
        simp [hm]

theorem countP_assign_partition {T : Type} (assign : Nat → Nat) (N : Nat) (hN : 1 ≤ N) :
    ∀ l : List (Nat × T),
      ((List.range N).map (fun w => l.countP (fun p => assign p.1 % N == w))).sum
        = l.length := by
  intro l
  induction l with
  | nil => simp
  | cons q l ih =>
      have hsplit : ∀ w : Nat,
          (q :: l).countP (fun p => assign p.1 % N == w)
            = l.countP (fun p => assign p.1 % N == w)
              + (if assign q.1 % N = w then 1 else 0) := by
        intro w
        rw [List.countP_cons]
        by_cases h : assign q.1 % N = w <;> simp [h]
      have hmap : ((List.range N).map
            (fun w => (q :: l).countP (fun p => assign p.1 % N == w))).sum
          = ((List.range N).map (fun w => l.countP (fun p => assign p.1 % N == w))).sum
            + ((List.range N).map (fun w => if assign q.1 % N = w then (1 : Nat) else 0)).sum := by
        have : ∀ ws : List Nat,
            (ws.map (fun w => (q :: l).countP (fun p => assign p.1 % N == w))).sum
              = (ws.map (fun w => l.countP (fun p => assign p.1 % N == w))).sum
                + (ws.map (fun w => if assign q.1 % N = w then (1 : Nat) else 0)).sum := by
          intro ws
          induction ws with
          | nil => rfl
          | cons w ws ihw =>
              simp only [List.map_cons, List.sum_cons, ihw, hsplit w]
              omega
        exact this (List.range N)
      rw [hmap, ih, sum_map_ite_one _ N (Nat.mod_lt _ (by omega))]
      simp

theorem assignedTo_length {T : Type} (N : Nat) (assign : Nat → Nat) (wid : Nat)
    (items : List T) :
    (assignedTo N assign wid items).length
      = items.enum.countP (fun p => assign p.1 % N == wid) := by
  unfold assignedTo
  rw [List.length_map, ← List.countP_eq_length_filter]

theorem newStreamWorker_conc_toNat_pos {T : Type} (n : Int) (hd : T → HRes) :
    1 ≤ (NewStreamWorker n hd).concurrency.toNat := by
  unfold NewStreamWorker
  by_cases h : n ≤ 0
  · simp [h]
  · rw [if_neg h]
    simp only []
    omega

/-- C7: the worker pool contract.  (i) `NewStreamWorker` coerces a
non-positive concurrency to 1 and keeps a positive one; (ii) `Start` returns
one exit record per spawned worker — it returns only after all of its
workers have exited; (iii) with no cancellation, the workers between them
consume the whole channel (closed and fully drained) and every worker exits
because the drained channel closed; (iv) the exit reasons and receive counts
are identical for any two handlers — a handler's returned failure or
recovered panic never terminates a worker's loop and never surfaces to the
caller of `Start`. -/
theorem stream_start_spec {T : Type} :
    (∀ (n : Int) (hd : T → HRes), n ≤ 0 → (NewStreamWorker n hd).concurrency = 1) ∧
    (∀ (n : Int) (hd : T → HRes), 0 < n → (NewStreamWorker n hd).concurrency = n) ∧
    (∀ (w : Worker T) (cancel : Nat → Option Nat) (assign : Nat → Nat) (items : List T),
        (Start w cancel assign items).length = w.concurrency.toNat) ∧
    (∀ (n : Int) (hd : T → HRes) (cancel : Nat → Option Nat) (assign : Nat → Nat)
        (items : List T), (∀ wid, cancel wid = none) →
        ((Start (NewStreamWorker n hd) cancel assign items).map Prod.snd).sum = items.length ∧
        ∀ q ∈ Start (NewStreamWorker n hd) cancel assign items, q.1 = WExit.drained) ∧
    (∀ (n : Int) (hd hd2 : T → HRes) (cancel : Nat → Option Nat) (assign : Nat → Nat)
        (items : List T),
        Start (NewStreamWorker n hd) cancel assign items
          = Start (NewStreamWorker n hd2) cancel assign items) := by
  refine ⟨?_, ?_, ?_, ?_, ?_⟩
  · intro n hd h
    unfold NewStreamWorker
    rw [if_pos h]
  · intro n hd h
    unfold NewStreamWorker
    rw [if_neg (by omega)]
  · intro w cancel assign items
    unfold Start
    rw [List.length_map, List.length_range]
  · intro n hd cancel assign items hnone
    set N := (NewStreamWorker n hd).concurrency.toNat with hNdef
    have hN : 1 ≤ N := newStreamWorker_conc_toNat_pos n hd
    constructor
    · unfold Start
      rw [List.map_map]
      have heach : ∀ wid,
          (Prod.snd ∘ fun wid => runWorker (NewStreamWorker n hd).handler (cancel wid)
            (assignedTo N assign wid items)) wid
          = items.enum.countP (fun p => assign p.1 % N == wid) := by
        intro wid
        simp only [Function.comp, hnone wid, runWorker_no_cancel]
        exact assignedTo_length N assign wid items
      calc ((List.range N).map (Prod.snd ∘ fun wid =>
              runWorker (NewStreamWorker n hd).handler (cancel wid)
                (assignedTo N assign wid items))).sum
          = ((List.range N).map (fun wid =>
              items.enum.countP (fun p => assign p.1 % N == wid))).sum := by
            apply congrArg
            exact List.map_congr_left (fun wid _ => heach wid)
        _ = items.enum.length := countP_assign_partition assign N hN items.enum
        _ = items.length := List.enum_length
    · intro q hq
      unfold Start at hq
      rw [List.mem_map] at hq
      obtain ⟨wid, _, hq⟩ := hq
      rw [hnone wid, runWorker_no_cancel] at hq
      rw [← hq]
  · intro n hd hd2 cancel assign items
    unfold Start NewStreamWorker
    by_cases h : n ≤ 0 <;>
      simp only [if_pos, if_neg, h] <;>
      exact List.map_congr_left (fun wid _ => runWorker_handler_irrel _ _ _ _)

/-- C7 witness: the pool contract applied at concrete inputs. -/
theorem stream_start_spec_witness :
    (NewStreamWorker (-1) (fun (_ : Nat) => HRes.ok)).concurrency = 1 ∧
    ((Start (NewStreamWorker 3 (fun (_ : Nat) => HRes.panicked)) (fun _ => none)
        (fun k => k) [0, 1, 2, 3, 4, 5, 6]).map Prod.snd).sum = 7 :=
  ⟨(stream_start_spec.1 (-1) (fun (_ : Nat) => HRes.ok) (by decide)),
   ((stream_start_spec.2.2.2.1 3 (fun (_ : Nat) => HRes.panicked) (fun _ => none)
      (fun k => k) [0, 1, 2, 3, 4, 5, 6] (fun _ => rfl)).1)⟩

/-!  Accounting machinery: completed invocations contribute their tag (their
wrapped error, or their logged panic index) to an accumulator; the
contributions of a run are, up to completion order, exactly the tags of the
spawned invocations.  -/

theorem get?_cons_eraseIdx_perm {α : Type} :
    ∀ (l : List α) (p : Nat) (a : α), l.get? p = some a →
      List.Perm (a :: l.eraseIdx p) l := by
  intro l
  induction l with
  | nil => intro p a h; cases p <;> cases h
  | cons x xs ih =>
      intro p a h
      cases p with
      | zero =>
          cases h
          exact List.Perm.refl _
      | succ p =>
          have h2 : xs.get? p = some a := h
          have h3 : List.Perm (a :: x :: xs.eraseIdx p) (x :: a :: xs.eraseIdx p) :=
            List.Perm.swap x a _
          have h4 : List.Perm (x :: a :: xs.eraseIdx p) (x :: xs) :=
            List.Perm.cons x (ih p a h2)
          show List.Perm (a :: x :: xs.eraseIdx p) (x :: xs)
          exact h3.trans h4

theorem filterMap_cons_toList {α β : Type} (f : α → Option β) (a : α) (l : List α) :
    List.filterMap f (a :: l) = (f a).toList ++ List.filterMap f l := by
  cases h : f a <;> simp [List.filterMap_cons, h]

theorem drainToLimit_dispatched (cfg : BatchConfig) (limit : Nat) (st : ExecState) :
    (drainToLimit cfg limit st).dispatched = st.dispatched := by
  unfold drainToLimit
  split
  · rfl
  · rw [drainN_dispatched]

theorem drainToLimit_parentCancelled (cfg : BatchConfig) (limit : Nat) (st : ExecState) :
    (drainToLimit cfg limit st).parentCancelled = st.parentCancelled := by
  unfold drainToLimit
  split
  · rfl
  · rw [drainN_parentCancelled]

theorem drainToLimit_limiterMade (cfg : BatchConfig) (limit : Nat) (st : ExecState) :
    (drainToLimit cfg limit st).limiterMade = st.limiterMade := by
  unfold drainToLimit
  split
  · rfl
  · rw [drainN_limiterMade]

theorem drainToLimit_limiterAbort (cfg : BatchConfig) (limit : Nat) (st : ExecState) :
    (drainToLimit cfg limit st).limiterAbort = st.limiterAbort := by
  unfold drainToLimit
  split
  · rfl
  · rw [drainN_limiterAbort]

theorem drainToLimit_firstErr_mono (cfg : BatchConfig) (limit : Nat) (st : ExecState)
    (e : GoErr) (h : st.firstErr = some e) :
    (drainToLimit cfg limit st).firstErr = some e := by
  unfold drainToLimit
  split
  · exact h
  · exact drainN_firstErr_mono cfg _ st e h

theorem drainToLimit_firstErr_ignore (cfg : BatchConfig) (limit : Nat) (st : ExecState)
    (hI : cfg.IgnoreError = true) :
    (drainToLimit cfg limit st).firstErr = st.firstErr := by
  unfold drainToLimit
  split
  · rfl
  · exact drainN_firstErr_ignore cfg _ st hI

theorem completeAt_tags {β : Type} (cfg : BatchConfig) (acc : ExecState → List β)
    (tg : Nat × HRes → Option β)
    (hproc : ∀ (st : ExecState) (i : Nat) (r : HRes),
      acc (processResult cfg st i r) = acc st ++ (tg (i, r)).toList)
    (hpend : ∀ (st : ExecState) (l : List (Nat × HRes)),
      acc { st with pending := l } = acc st)
    (st : ExecState) (p : Nat) :
    List.Perm
      (acc (completeAt cfg st p) ++ (completeAt cfg st p).pending.filterMap tg)
      (acc st ++ st.pending.filterMap tg) := by
  unfold completeAt
  cases hq : st.pending.get? p with
  | none => exact List.Perm.refl _
  | some q =>
      obtain ⟨i, r⟩ := q
      have hpe : (processResult cfg { st with pending := st.pending.eraseIdx p } i r).pending
          = st.pending.eraseIdx p := by
        rw [processResult_pending]
      have hacc : acc (processResult cfg { st with pending := st.pending.eraseIdx p } i r)
          = acc st ++ (tg (i, r)).toList := by
        rw [hproc, hpend]
      rw [hpe, hacc]
      have hperm : List.Perm ((i, r) :: st.pending.eraseIdx p) st.pending :=
        get?_cons_eraseIdx_perm st.pending p (i, r) hq
      have h2 : List.Perm (((i, r) :: st.pending.eraseIdx p).filterMap tg)
          (st.pending.filterMap tg) := hperm.filterMap tg
      rw [filterMap_cons_toList] at h2
      rw [List.append_assoc]
      exact List.Perm.append_left (acc st) h2

theorem completeMany_tags {β : Type} (cfg : BatchConfig) (acc : ExecState → List β)
    (tg : Nat × HRes → Option β)
    (hproc : ∀ (st : ExecState) (i : Nat) (r : HRes),
      acc (processResult cfg st i r) = acc st ++ (tg (i, r)).toList)
    (hpend : ∀ (st : ExecState) (l : List (Nat × HRes)),
      acc { st with pending := l } = acc st)
    (ps : List Nat) (st : ExecState) :
    List.Perm
      (acc (completeMany cfg st ps) ++ (completeMany cfg st ps).pending.filterMap tg)
      (acc st ++ st.pending.filterMap tg) := by
  induction ps generalizing st with
  | nil => exact List.Perm.refl _
  | cons p ps ih =>
      have step := completeAt_tags cfg acc tg hproc hpend st p
      have rest := ih (completeAt cfg st p)
      exact rest.trans step

theorem drainN_tags {β : Type} (cfg : BatchConfig) (acc : ExecState → List β)
    (tg : Nat × HRes → Option β)
    (hproc : ∀ (st : ExecState) (i : Nat) (r : HRes),
      acc (processResult cfg st i r) = acc st ++ (tg (i, r)).toList)
    (hpend : ∀ (st : ExecState) (l : List (Nat × HRes)),
      acc { st with pending := l } = acc st)
    (n : Nat) (st : ExecState) :
    List.Perm
      (acc (drainN cfg n st) ++ (drainN cfg n st).pending.filterMap tg)
      (acc st ++ st.pending.filterMap tg) := by
  induction n generalizing st with
  | zero => exact List.Perm.refl _
  | succ n ih =>
      unfold drainN
      cases hp : st.pending with
      | nil =>
          show List.Perm (acc st ++ st.pending.filterMap tg) (acc st ++ List.filterMap tg [])
          rw [hp]
      | cons q rest =>
          obtain ⟨i, r⟩ := q
          have step := ih (processResult cfg { st with pending := rest } i r)
          have hacc : acc (processResult cfg { st with pending := rest } i r)
              = acc st ++ (tg (i, r)).toList := by
            rw [hproc, hpend]
          have hpe : (processResult cfg { st with pending := rest } i r).pending = rest := by
            rw [processResult_pending]
          rw [hacc, hpe] at step
          have heq : acc st ++ (tg (i, r)).toList ++ rest.filterMap tg
              = acc st ++ ((i, r) :: rest).filterMap tg := by
            rw [filterMap_cons_toList, List.append_assoc]
          rw [heq] at step
          show List.Perm
            (acc (drainN cfg n (processResult cfg { st with pending := rest } i r))
              ++ (drainN cfg n (processResult cfg { st with pending := rest } i r)).pending.filterMap tg)
            (acc st ++ ((i, r) :: rest).filterMap tg)
          exact step

theorem gWait_tags {β : Type} (cfg : BatchConfig) (acc : ExecState → List β)
    (tg : Nat × HRes → Option β)
    (hproc : ∀ (st : ExecState) (i : Nat) (r : HRes),
      acc (processResult cfg st i r) = acc st ++ (tg (i, r)).toList)
    (hpend : ∀ (st : ExecState) (l : List (Nat × HRes)),
      acc { st with pending := l } = acc st)
    (sched : Sched) (st : ExecState) :
    List.Perm (acc (gWait cfg sched st)) (acc st ++ st.pending.filterMap tg) := by
  have h1 := completeMany_tags cfg acc tg hproc hpend sched.waitCompletions st
  have h2 := drainN_tags cfg acc tg hproc hpend
    (completeMany cfg st sched.waitCompletions).pending.length
    (completeMany cfg st sched.waitCompletions)
  have h3 : acc (gWait cfg sched st) ++ (gWait cfg sched st).pending.filterMap tg
      = acc (gWait cfg sched st) := by
    rw [gWait_pending]
    simp
  have h4 : List.Perm
      (acc (gWait cfg sched st) ++ (gWait cfg sched st).pending.filterMap tg)
      (acc st ++ st.pending.filterMap tg) := by
    unfold gWait
    exact h2.trans h1
  rw [h3] at h4
  exact h4

theorem drainToLimit_tags {β : Type} (cfg : BatchConfig) (acc : ExecState → List β)
    (tg : Nat × HRes → Option β)
    (hproc : ∀ (st : ExecState) (i : Nat) (r : HRes),
      acc (processResult cfg st i r) = acc st ++ (tg (i, r)).toList)
    (hpend : ∀ (st : ExecState) (l : List (Nat × HRes)),
      acc { st with pending := l } = acc st)
    (limit : Nat) (st : ExecState) :
    List.Perm
      (acc (drainToLimit cfg limit st) ++ (drainToLimit cfg limit st).pending.filterMap tg)
      (acc st ++ st.pending.filterMap tg) := by
  unfold drainToLimit
  split
  · exact List.Perm.refl _
  · exact drainN_tags cfg acc tg hproc hpend _ st

/-!  The dispatch loop: unfolding equations and step facts.  -/

theorem loopCheck_pending (cfg : BatchConfig) (sched : Sched) (i : Nat) (st : ExecState) :
    (loopCheck cfg sched i st).pending = (completeMany cfg st (sched.completions i)).pending := rfl

theorem loopCheck_dispatched (cfg : BatchConfig) (sched : Sched) (i : Nat) (st : ExecState) :
    (loopCheck cfg sched i st).dispatched = st.dispatched := by
  show (completeMany cfg st (sched.completions i)).dispatched = st.dispatched
  exact completeMany_dispatched cfg _ st

theorem loopCheck_parentCancelled (cfg : BatchConfig) (sched : Sched) (i : Nat) (st : ExecState) :
    (loopCheck cfg sched i st).parentCancelled = (st.parentCancelled || sched.pCancelAt i) := by
  show ((completeMany cfg st (sched.completions i)).parentCancelled || sched.pCancelAt i)
      = (st.parentCancelled || sched.pCancelAt i)
  rw [completeMany_parentCancelled]

theorem loopCheck_limiterMade (cfg : BatchConfig) (sched : Sched) (i : Nat) (st : ExecState) :
    (loopCheck cfg sched i st).limiterMade = st.limiterMade := by
  show (completeMany cfg st (sched.completions i)).limiterMade = st.limiterMade
  exact completeMany_limiterMade cfg _ st

theorem loopCheck_limiterAbort (cfg : BatchConfig) (sched : Sched) (i : Nat) (st : ExecState) :
    (loopCheck cfg sched i st).limiterAbort = st.limiterAbort := by
  show (completeMany cfg st (sched.completions i)).limiterAbort = st.limiterAbort
  exact completeMany_limiterAbort cfg _ st

theorem loopCheck_firstErr_mono (cfg : BatchConfig) (sched : Sched) (i : Nat) (st : ExecState)
    (e : GoErr) (h : st.firstErr = some e) :
    (loopCheck cfg sched i st).firstErr = some e := by
  show (completeMany cfg st (sched.completions i)).firstErr = some e
  exact completeMany_firstErr_mono cfg _ st e h

theorem loopCheck_firstErr_ignore (cfg : BatchConfig) (sched : Sched) (i : Nat) (st : ExecState)
    (hI : cfg.IgnoreError = true) :
    (loopCheck cfg sched i st).firstErr = st.firstErr := by
  show (completeMany cfg st (sched.completions i)).firstErr = st.firstErr
  exact completeMany_firstErr_ignore cfg _ st hI

theorem loopSpawn_pending {T : Type} (cfg : BatchConfig) (handler : Nat → T → HRes)
    (i : Nat) (v : T) (st : ExecState) :
    (loopSpawn cfg handler i v st).pending
      = (drainToLimit cfg (limitOf cfg) st).pending ++ [(i, handler i v)] := rfl

theorem loopSpawn_dispatched {T : Type} (cfg : BatchConfig) (handler : Nat → T → HRes)
    (i : Nat) (v : T) (st : ExecState) :
    (loopSpawn cfg handler i v st).dispatched = st.dispatched ++ [i] := by
  show (drainToLimit cfg (limitOf cfg) st).dispatched ++ [i] = st.dispatched ++ [i]
  rw [drainToLimit_dispatched]

theorem loopSpawn_parentCancelled {T : Type} (cfg : BatchConfig) (handler : Nat → T → HRes)
    (i : Nat) (v : T) (st : ExecState) :
    (loopSpawn cfg handler i v st).parentCancelled = st.parentCancelled := by
  show (drainToLimit cfg (limitOf cfg) st).parentCancelled = st.parentCancelled
  exact drainToLimit_parentCancelled cfg _ st

theorem loopSpawn_limiterMade {T : Type} (cfg : BatchConfig) (handler : Nat → T → HRes)
    (i : Nat) (v : T) (st : ExecState) :
    (loopSpawn cfg handler i v st).limiterMade = st.limiterMade := by
  show (drainToLimit cfg (limitOf cfg) st).limiterMade = st.limiterMade
  exact drainToLimit_limiterMade cfg _ st

theorem loopSpawn_limiterAbort {T : Type} (cfg : BatchConfig) (handler : Nat → T → HRes)
    (i : Nat) (v : T) (st : ExecState) :
    (loopSpawn cfg handler i v st).limiterAbort = st.limiterAbort := by
  show (drainToLimit cfg (limitOf cfg) st).limiterAbort = st.limiterAbort
  exact drainToLimit_limiterAbort cfg _ st

theorem loopSpawn_firstErr_mono {T : Type} (cfg : BatchConfig) (handler : Nat → T → HRes)
    (i : Nat) (v : T) (st : ExecState) (e : GoErr) (h : st.firstErr = some e) :
    (loopSpawn cfg handler i v st).firstErr = some e := by
  show (drainToLimit cfg (limitOf cfg) st).firstErr = some e
  exact drainToLimit_firstErr_mono cfg _ st e h

theorem loopSpawn_firstErr_ignore {T : Type} (cfg : BatchConfig) (handler : Nat → T → HRes)
    (i : Nat) (v : T) (st : ExecState) (hI : cfg.IgnoreError = true) :
    (loopSpawn cfg handler i v st).firstErr = st.firstErr := by
  show (drainToLimit cfg (limitOf cfg) st).firstErr = st.firstErr
  exact drainToLimit_firstErr_ignore cfg _ st hI

theorem dispatchLoop_cons_eq {T : Type} (cfg : BatchConfig) (sched : Sched)
    (handler : Nat → T → HRes) (i : Nat) (v : T) (rest : List T) (st : ExecState) :
    dispatchLoop cfg sched handler i (v :: rest) st =
      if ctxCancelled (loopCheck cfg sched i st) then loopCheck cfg sched i st
      else
        match (if limiterOn cfg then sched.limiterFail i else none) with
        | some e => { loopCheck cfg sched i st with limiterAbort := some (i, e) }
        | none => dispatchLoop cfg sched handler (i + 1) rest
            (loopSpawn cfg handler i v (loopCheck cfg sched i st)) := rfl

theorem dispatchLoop_cons_break {T : Type} (cfg : BatchConfig) (sched : Sched)
    (handler : Nat → T → HRes) (i : Nat) (v : T) (rest : List T) (st : ExecState)
    (h : ctxCancelled (loopCheck cfg sched i st) = true) :
    dispatchLoop cfg sched handler i (v :: rest) st = loopCheck cfg sched i st := by
  rw [dispatchLoop_cons_eq, if_pos h]

theorem dispatchLoop_cons_abort {T : Type} (cfg : BatchConfig) (sched : Sched)
    (handler : Nat → T → HRes) (i : Nat) (v : T) (rest : List T) (st : ExecState)
    (h : ctxCancelled (loopCheck cfg sched i st) = false) (e : GoErr)
    (hl : (if limiterOn cfg then sched.limiterFail i else none) = some e) :
    dispatchLoop cfg sched handler i (v :: rest) st
      = { loopCheck cfg sched i st with limiterAbort := some (i, e) } := by
  rw [dispatchLoop_cons_eq, if_neg (by simp [h]), hl]

theorem dispatchLoop_cons_go {T : Type} (cfg : BatchConfig) (sched : Sched)
    (handler : Nat → T → HRes) (i : Nat) (v : T) (rest : List T) (st : ExecState)
    (h : ctxCancelled (loopCheck cfg sched i st) = false)
    (hl : (if limiterOn cfg then sched.limiterFail i else none) = none) :
    dispatchLoop cfg sched handler i (v :: rest) st
      = dispatchLoop cfg sched handler (i + 1) rest
          (loopSpawn cfg handler i v (loopCheck cfg sched i st)) := by
  rw [dispatchLoop_cons_eq, if_neg (by simp [h]), hl]

theorem dispatchLoop_limiterMade {T : Type} (cfg : BatchConfig) (sched : Sched)
    (handler : Nat → T → HRes) :
    ∀ (rest : List T) (i : Nat) (st : ExecState),
      (dispatchLoop cfg sched handler i rest st).limiterMade = st.limiterMade := by
  intro rest
  induction rest with
  | nil => intro i st; rfl
  | cons v rest ih =>
      intro i st
      by_cases hctx : ctxCancelled (loopCheck cfg sched i st) = true
      · rw [dispatchLoop_cons_break cfg sched handler i v rest st hctx]
        exact loopCheck_limiterMade cfg sched i st
      · have hctx2 : ctxCancelled (loopCheck cfg sched i st) = false := by
          revert hctx; cases ctxCancelled (loopCheck cfg sched i st) <;> simp
        cases hl : (if limiterOn cfg then sched.limiterFail i else none) with
        | some e =>
            rw [dispatchLoop_cons_abort cfg sched handler i v rest st hctx2 e hl]
            exact loopCheck_limiterMade cfg sched i st
        | none =>
            rw [dispatchLoop_cons_go cfg sched handler i v rest st hctx2 hl]
            rw [ih, loopSpawn_limiterMade, loopCheck_limiterMade]

theorem dispatchLoop_limiterAbort_none {T : Type} (cfg : BatchConfig) (sched : Sched)
    (handler : Nat → T → HRes) (hL : ∀ j, sched.limiterFail j = none) :
    ∀ (rest : List T) (i : Nat) (st : ExecState),
      (dispatchLoop cfg sched handler i rest st).limiterAbort = st.limiterAbort := by
  have hlim : ∀ j, (if limiterOn cfg then sched.limiterFail j else none) = none := by
    intro j
    cases limiterOn cfg <;> simp [hL j]
  intro rest
  induction rest with
  | nil => intro i st; rfl
  | cons v rest ih =>
      intro i st
      by_cases hctx : ctxCancelled (loopCheck cfg sched i st) = true
      · rw [dispatchLoop_cons_break cfg sched handler i v rest st hctx]
        exact loopCheck_limiterAbort cfg sched i st
      · have hctx2 : ctxCancelled (loopCheck cfg sched i st) = false := by
          revert hctx; cases ctxCancelled (loopCheck cfg sched i st) <;> simp
        rw [dispatchLoop_cons_go cfg sched handler i v rest st hctx2 (hlim i)]
        rw [ih, loopSpawn_limiterAbort, loopCheck_limiterAbort]

theorem dispatchLoop_parentCancelled_false {T : Type} (cfg : BatchConfig) (sched : Sched)
    (handler : Nat → T → HRes) (hP : ∀ j, sched.pCancelAt j = false) :
    ∀ (rest : List T) (i : Nat) (st : ExecState),
      (dispatchLoop cfg sched handler i rest st).parentCancelled = st.parentCancelled := by
  intro rest
  induction rest with
  | nil => intro i st; rfl
  | cons v rest ih =>
      intro i st
      have hchk : (loopCheck cfg sched i st).parentCancelled = st.parentCancelled := by
        rw [loopCheck_parentCancelled, hP i, Bool.or_false]
      by_cases hctx : ctxCancelled (loopCheck cfg sched i st) = true
      · rw [dispatchLoop_cons_break cfg sched handler i v rest st hctx]
        exact hchk
      · have hctx2 : ctxCancelled (loopCheck cfg sched i st) = false := by
          revert hctx; cases ctxCancelled (loopCheck cfg sched i st) <;> simp
        cases hl : (if limiterOn cfg then sched.limiterFail i else none) with
        | some e =>
            rw [dispatchLoop_cons_abort cfg sched handler i v rest st hctx2 e hl]
            exact hchk
        | none =>
            rw [dispatchLoop_cons_go cfg sched handler i v rest st hctx2 hl]
            rw [ih, loopSpawn_parentCancelled]
            exact hchk

theorem dispatchLoop_firstErr_mono {T : Type} (cfg : BatchConfig) (sched : Sched)
    (handler : Nat → T → HRes) :
    ∀ (rest : List T) (i : Nat) (st : ExecState) (e : GoErr), st.firstErr = some e →
      (dispatchLoop cfg sched handler i rest st).firstErr = some e := by
  intro rest
  induction rest with
  | nil => intro i st e h; exact h
  | cons v rest ih =>
      intro i st e h
      by_cases hctx : ctxCancelled (loopCheck cfg sched i st) = true
      · rw [dispatchLoop_cons_break cfg sched handler i v rest st hctx]
        exact loopCheck_firstErr_mono cfg sched i st e h
      · have hctx2 : ctxCancelled (loopCheck cfg sched i st) = false := by
          revert hctx; cases ctxCancelled (loopCheck cfg sched i st) <;> simp
        cases hl : (if limiterOn cfg then sched.limiterFail i else none) with
        | some e2 =>
            rw [dispatchLoop_cons_abort cfg sched handler i v rest st hctx2 e2 hl]
            exact loopCheck_firstErr_mono cfg sched i st e h
        | none =>
            rw [dispatchLoop_cons_go cfg sched handler i v rest st hctx2 hl]
            exact ih (i + 1) _ e
              (loopSpawn_firstErr_mono cfg handler i v _ e
                (loopCheck_firstErr_mono cfg sched i st e h))

theorem dispatchLoop_ignore {T : Type} (cfg : BatchConfig) (sched : Sched)
    (handler : Nat → T → HRes) (hI : cfg.IgnoreError = true)
    (hP : ∀ j, sched.pCancelAt j = false) (hL : ∀ j, sched.limiterFail j = none) :
    ∀ (rest : List T) (i : Nat) (st : ExecState),
      st.firstErr = none → st.parentCancelled = false →
      (dispatchLoop cfg sched handler i rest st).dispatched
          = st.dispatched ++ idxSeg i rest.length ∧
      (dispatchLoop cfg sched handler i rest st).firstErr = none ∧
      (dispatchLoop cfg sched handler i rest st).parentCancelled = false := by
  have hlim : ∀ j, (if limiterOn cfg then sched.limiterFail j else none) = none := by
    intro j
    cases limiterOn cfg <;> simp [hL j]
  intro rest
  induction rest with
  | nil =>
      intro i st h1 h2
      refine ⟨?_, h1, h2⟩
      simp [dispatchLoop, idxSeg]
  | cons v rest ih =>
      intro i st h1 h2
      have hchkF : (loopCheck cfg sched i st).firstErr = none := by
        rw [loopCheck_firstErr_ignore cfg sched i st hI, h1]
      have hchkP : (loopCheck cfg sched i st).parentCancelled = false := by
        rw [loopCheck_parentCancelled, hP i, h2]
        rfl
      have hctx : ctxCancelled (loopCheck cfg sched i st) = false := by
        unfold ctxCancelled
        rw [hchkF, hchkP]
        rfl
      rw [dispatchLoop_cons_go cfg sched handler i v rest st hctx (hlim i)]
      have hsF : (loopSpawn cfg handler i v (loopCheck cfg sched i st)).firstErr = none := by
        rw [loopSpawn_firstErr_ignore cfg handler i v _ hI, hchkF]
      have hsP : (loopSpawn cfg handler i v (loopCheck cfg sched i st)).parentCancelled
          = false := by
        rw [loopSpawn_parentCancelled, hchkP]
      obtain ⟨hd, hf, hp⟩ := ih (i + 1) _ hsF hsP
      refine ⟨?_, hf, hp⟩
      rw [hd, loopSpawn_dispatched, loopCheck_dispatched, List.append_assoc]
      rfl

theorem dispatchLoop_prefix {T : Type} (cfg : BatchConfig) (sched : Sched)
    (handler : Nat → T → HRes) :
    ∀ (rest : List T) (i : Nat) (st : ExecState),
      ∃ m, m ≤ rest.length ∧
        (dispatchLoop cfg sched handler i rest st).dispatched = st.dispatched ++ idxSeg i m ∧
        (m < rest.length →
          ctxCancelled (dispatchLoop cfg sched handler i rest st) = true ∨
          ∃ e, (dispatchLoop cfg sched handler i rest st).limiterAbort = some (i + m, e)) := by
  intro rest
  induction rest with
  | nil =>
      intro i st
      refine ⟨0, Nat.le_refl 0, ?_, ?_⟩
      · simp [dispatchLoop, idxSeg]
      · intro h
        exact absurd h (by simp)
  | cons v rest ih =>
      intro i st
      by_cases hctx : ctxCancelled (loopCheck cfg sched i st) = true
      · refine ⟨0, by simp, ?_, ?_⟩
        · rw [dispatchLoop_cons_break cfg sched handler i v rest st hctx,
            loopCheck_dispatched]
          simp [idxSeg]
        · intro _
          left
          rw [dispatchLoop_cons_break cfg sched handler i v rest st hctx]
          exact hctx
      · have hctx2 : ctxCancelled (loopCheck cfg sched i st) = false := by
          revert hctx; cases ctxCancelled (loopCheck cfg sched i st) <;> simp
        cases hl : (if limiterOn cfg then sched.limiterFail i else none) with
        | some e =>
            refine ⟨0, by simp, ?_, ?_⟩
            · rw [dispatchLoop_cons_abort cfg sched handler i v rest st hctx2 e hl]
              show (loopCheck cfg sched i st).dispatched = st.dispatched ++ idxSeg i 0
              rw [loopCheck_dispatched]
              simp [idxSeg]
            · intro _
              right
              refine ⟨e, ?_⟩
              rw [dispatchLoop_cons_abort cfg sched handler i v rest st hctx2 e hl]
              show some (i, e) = some (i + 0, e)
              rw [Nat.add_zero]
        | none =>
            rw [dispatchLoop_cons_go cfg sched handler i v rest st hctx2 hl]
            obtain ⟨m, hm, hd, hc⟩ := ih (i + 1) (loopSpawn cfg handler i v (loopCheck cfg sched i st))
            refine ⟨m + 1, by simpa using Nat.succ_le_succ hm, ?_, ?_⟩
            · rw [hd, loopSpawn_dispatched, loopCheck_dispatched, List.append_assoc]
              rfl
            · intro hlt
              have hlt2 : m < rest.length := by
                simpa using Nat.lt_of_succ_lt_succ (by simpa using hlt)
              rcases hc hlt2 with hcl | ⟨e, he⟩
              · exact Or.inl hcl
              · right
                refine ⟨e, ?_⟩
                have harith : i + 1 + m = i + (m + 1) := by omega
                rw [harith] at he
                exact he

theorem dispatchLoop_tags {T β : Type} (cfg : BatchConfig) (sched : Sched)
    (handler : Nat → T → HRes) (acc : ExecState → List β) (tg : Nat × HRes → Option β)
    (hproc : ∀ (st : ExecState) (i : Nat) (r : HRes),
      acc (processResult cfg st i r) = acc st ++ (tg (i, r)).toList)
    (hpend : ∀ (st : ExecState) (l : List (Nat × HRes)),
      acc { st with pending := l } = acc st)
    (hpc : ∀ (st : ExecState) (b : Bool), acc { st with parentCancelled := b } = acc st)
    (habort : ∀ (st : ExecState) (x : Option (Nat × GoErr)),
      acc { st with limiterAbort := x } = acc st)
    (hpd : ∀ (st : ExecState) (l : List (Nat × HRes)) (d : List Nat),
      acc { st with pending := l, dispatched := d } = acc st) :
    ∀ (rest : List T) (i : Nat) (st : ExecState),
      ∃ m, m ≤ rest.length ∧
        (dispatchLoop cfg sched handler i rest st).dispatched = st.dispatched ++ idxSeg i m ∧
        List.Perm
          (acc (dispatchLoop cfg sched handler i rest st)
            ++ (dispatchLoop cfg sched handler i rest st).pending.filterMap tg)
          (acc st ++ st.pending.filterMap tg
            ++ ((resList handler i rest).take m).filterMap tg) := by
  have haccChk : ∀ (i : Nat) (st : ExecState),
      acc (loopCheck cfg sched i st) = acc (completeMany cfg st (sched.completions i)) := by
    intro i st
    exact hpc _ _
  have echk : ∀ (i : Nat) (st : ExecState),
      List.Perm (acc (loopCheck cfg sched i st)
          ++ (loopCheck cfg sched i st).pending.filterMap tg)
        (acc st ++ st.pending.filterMap tg) := by
    intro i st
    rw [haccChk, loopCheck_pending]
    exact completeMany_tags cfg acc tg hproc hpend _ st
  intro rest
  induction rest with
  | nil =>
      intro i st
      refine ⟨0, Nat.le_refl 0, by simp [dispatchLoop, idxSeg], ?_⟩
      simp [dispatchLoop, resList]
  | cons v rest ih =>
      intro i st
      by_cases hctx : ctxCancelled (loopCheck cfg sched i st) = true
      · refine ⟨0, by simp, ?_, ?_⟩
        · rw [dispatchLoop_cons_break cfg sched handler i v rest st hctx,
            loopCheck_dispatched]
          simp [idxSeg]
        · rw [dispatchLoop_cons_break cfg sched handler i v rest st hctx]
          simpa using echk i st
      · have hctx2 : ctxCancelled (loopCheck cfg sched i st) = false := by
          revert hctx; cases ctxCancelled (loopCheck cfg sched i st) <;> simp
        cases hl : (if limiterOn cfg then sched.limiterFail i else none) with
        | some e =>
            refine ⟨0, by simp, ?_, ?_⟩
            · rw [dispatchLoop_cons_abort cfg sched handler i v rest st hctx2 e hl]
              show (loopCheck cfg sched i st).dispatched = st.dispatched ++ idxSeg i 0
              rw [loopCheck_dispatched]
              simp [idxSeg]
            · rw [dispatchLoop_cons_abort cfg sched handler i v rest st hctx2 e hl]
              have h1 : acc { loopCheck cfg sched i st with limiterAbort := some (i, e) }
                  = acc (loopCheck cfg sched i st) := habort _ _
              have h2 : ({ loopCheck cfg sched i st with
                  limiterAbort := some (i, e) } : ExecState).pending
                  = (loopCheck cfg sched i st).pending := rfl
              rw [h1, h2]
              simpa using echk i st
        | none =>
            rw [dispatchLoop_cons_go cfg sched handler i v rest st hctx2 hl]
            obtain ⟨m, hm, hd, hpm⟩ :=
              ih (i + 1) (loopSpawn cfg handler i v (loopCheck cfg sched i st))
            refine ⟨m + 1, by simpa using Nat.succ_le_succ hm, ?_, ?_⟩
            · rw [hd, loopSpawn_dispatched, loopCheck_dispatched, List.append_assoc]
              rfl
            · have haccS : acc (loopSpawn cfg handler i v (loopCheck cfg sched i st))
                  = acc (drainToLimit cfg (limitOf cfg) (loopCheck cfg sched i st)) :=
                hpd _ _ _
              have hpendS := loopSpawn_pending cfg handler i v (loopCheck cfg sched i st)
              have hsingle : List.filterMap tg [(i, handler i v)]
                  = (tg (i, handler i v)).toList := by
                rw [filterMap_cons_toList]
                simp
              have hs4 : acc (loopSpawn cfg handler i v (loopCheck cfg sched i st))
                    ++ (loopSpawn cfg handler i v (loopCheck cfg sched i st)).pending.filterMap tg
                  = (acc (drainToLimit cfg (limitOf cfg) (loopCheck cfg sched i st))
                      ++ (drainToLimit cfg (limitOf cfg) (loopCheck cfg sched i st)).pending.filterMap tg)
                    ++ (tg (i, handler i v)).toList := by
                rw [haccS, hpendS, List.filterMap_append, hsingle, List.append_assoc]
              rw [hs4] at hpm
              have stepX : List.Perm
                  (acc (drainToLimit cfg (limitOf cfg) (loopCheck cfg sched i st))
                    ++ (drainToLimit cfg (limitOf cfg) (loopCheck cfg sched i st)).pending.filterMap tg)
                  (acc st ++ st.pending.filterMap tg) :=
                (drainToLimit_tags cfg acc tg hproc hpend _ _).trans (echk i st)
              have chain : List.Perm
                  ((acc (drainToLimit cfg (limitOf cfg) (loopCheck cfg sched i st))
                      ++ (drainToLimit cfg (limitOf cfg) (loopCheck cfg sched i st)).pending.filterMap tg)
                    ++ (tg (i, handler i v)).toList
                    ++ ((resList handler (i + 1) rest).take m).filterMap tg)
                  ((acc st ++ st.pending.filterMap tg)
                    ++ (tg (i, handler i v)).toList
                    ++ ((resList handler (i + 1) rest).take m).filterMap tg) :=
                (stepX.append_right _).append_right _
              have htake : ((resList handler i (v :: rest)).take (m + 1)).filterMap tg
                  = (tg (i, handler i v)).toList
                    ++ ((resList handler (i + 1) rest).take m).filterMap tg := by
                show (((i, handler i v) :: resList handler (i + 1) rest).take (m + 1)).filterMap tg = _
                rw [List.take_succ_cons, filterMap_cons_toList]
              rw [htake, ← List.append_assoc]
              exact (hpm.trans chain)

theorem resList_length {T : Type} (handler : Nat → T → HRes) :
    ∀ (l : List T) (i : Nat), (resList handler i l).length = l.length := by
  intro l
  induction l with
  | nil => intro i; rfl
  | cons v rest ih => intro i; simp [resList, ih]

theorem errs_processResult (cfg : BatchConfig) (hI : cfg.IgnoreError = true)
    (st : ExecState) (i : Nat) (r : HRes) :
    (processResult cfg st i r).errs = st.errs ++ (failTag (i, r)).toList := by
  cases r with
  | ok => simp [processResult, failTag]
  | panicked => simp [processResult, failTag]
  | fail e => simp [processResult, failTag, hI]

theorem panicLog_processResult (cfg : BatchConfig) (st : ExecState) (i : Nat) (r : HRes) :
    (processResult cfg st i r).panicLog = st.panicLog ++ (panicTag (i, r)).toList := by
  cases r with
  | ok => simp [processResult, panicTag]
  | panicked => simp [processResult, panicTag]
  | fail e =>
      simp only [processResult, panicTag]
      split
      · simp
      · cases h : st.firstErr <;> simp [h]

/-!  Claim C3 — collect-and-continue.  -/

/-- C3: with the collect-and-continue policy, on a run without external
cancellation or limiter failure, every item is dispatched exactly once (in
input order); the accumulator ends up containing, up to completion order,
exactly one index-tagged entry per failing handler invocation; and `Execute`
returns success when the accumulator is empty, and otherwise the aggregate
reporting the accumulator's length and its first entry by insertion order. -/
theorem collect_and_continue_spec {T : Type} (cfg : BatchConfig) (sched : Sched)
    (items : List T) (handler : Nat → T → HRes)
    (hI : cfg.IgnoreError = true) (hc : 1 ≤ cfg.Concurrency)
    (hP : ∀ j, sched.pCancelAt j = false) (hL : ∀ j, sched.limiterFail j = none) :
    (Execute cfg sched items handler).2.dispatched = List.range items.length ∧
    List.Perm (Execute cfg sched items handler).2.errs
      (failTags (resList handler 0 items)) ∧
    ((Execute cfg sched items handler).2.errs = [] →
      (Execute cfg sched items handler).1 = none) ∧
    (∀ f frest, (Execute cfg sched items handler).2.errs = f :: frest →
      (Execute cfg sched items handler).1
        = some (GoErr.batchWrap (frest.length + 1) f)) := by
  cases items with
  | nil =>
      refine ⟨rfl, ?_, fun _ => rfl, fun f frest hf => ?_⟩
      · exact List.Perm.refl _
      · exact absurd hf (by simp [Execute, emptyExecState])
  | cons v vs =>
      have hAb : (dispatchLoop cfg sched handler 0 (v :: vs) (initExecState cfg)).limiterAbort
          = none := by
        rw [dispatchLoop_limiterAbort_none cfg sched handler hL]
        rfl
      have hE := Execute_cons_wait cfg sched v vs handler hAb
      obtain ⟨hd, hf, hp⟩ :=
        dispatchLoop_ignore cfg sched handler hI hP hL (v :: vs) 0 (initExecState cfg) rfl rfl
      have hdisp : (gWait cfg sched
            (dispatchLoop cfg sched handler 0 (v :: vs) (initExecState cfg))).dispatched
          = List.range (v :: vs).length := by
        rw [gWait_dispatched, hd, idxSeg_zero]
        rfl
      have hfw : (gWait cfg sched
            (dispatchLoop cfg sched handler 0 (v :: vs) (initExecState cfg))).firstErr
          = none := by
        rw [gWait_firstErr_ignore cfg sched _ hI, hf]
      have herrperm : List.Perm
          (gWait cfg sched
            (dispatchLoop cfg sched handler 0 (v :: vs) (initExecState cfg))).errs
          (failTags (resList handler 0 (v :: vs))) := by
        obtain ⟨m, hm, hd2, hperm⟩ := dispatchLoop_tags cfg sched handler
          ExecState.errs failTag
          (fun st i r => errs_processResult cfg hI st i r)
          (fun st l => rfl) (fun st b => rfl) (fun st x => rfl) (fun st l d => rfl)
          (v :: vs) 0 (initExecState cfg)
        have hmn : m = (v :: vs).length := by
          have h1 : ((initExecState cfg).dispatched ++ idxSeg 0 m).length
              = ((initExecState cfg).dispatched ++ idxSeg 0 (v :: vs).length).length := by
            rw [← hd2, ← hd]
          simpa [idxSeg_length] using h1
        have hgw := gWait_tags cfg ExecState.errs failTag
          (fun st i r => errs_processResult cfg hI st i r)
          (fun st l => rfl) sched
          (dispatchLoop cfg sched handler 0 (v :: vs) (initExecState cfg))
        have htake : (resList handler 0 (v :: vs)).take m = resList handler 0 (v :: vs) := by
          rw [hmn, ← resList_length handler (v :: vs) 0]
          exact List.take_length _
        rw [htake] at hperm
        have hperm2 : List.Perm
            ((dispatchLoop cfg sched handler 0 (v :: vs) (initExecState cfg)).errs
              ++ (dispatchLoop cfg sched handler 0 (v :: vs) (initExecState cfg)).pending.filterMap failTag)
            ((resList handler 0 (v :: vs)).filterMap failTag) := by
          simpa [initExecState, emptyExecState] using hperm
        have : List.Perm
            (gWait cfg sched
              (dispatchLoop cfg sched handler 0 (v :: vs) (initExecState cfg))).errs
            ((resList handler 0 (v :: vs)).filterMap failTag) :=
          hgw.trans hperm2
        exact this
      refine ⟨?_, ?_, ?_, ?_⟩
      · rw [hE]
        exact hdisp
      · rw [hE]
        exact herrperm
      · intro he
        rw [hE] at he ⊢
        show waitOutcome cfg _ = none
        unfold waitOutcome
        rw [hfw, if_pos hI, he]
      · intro f frest he
        rw [hE] at he ⊢
        show waitOutcome cfg _ = some (GoErr.batchWrap (frest.length + 1) f)
        unfold waitOutcome
        rw [hfw, if_pos hI, he]

/-- C3 witness: ten items with failures configured at positions 2, 5 and 7,
run under collect-and-continue: all ten items are dispatched once, the
accumulator holds the three tagged failures, and the aggregate reports count
3 with the first recorded failure. -/
theorem collect_and_continue_witness :
    (Execute { defaultBatchConfig with IgnoreError := true } quietSched
        (List.range 10)
        (fun i _ => if i = 2 ∨ i = 5 ∨ i = 7 then HRes.fail (GoErr.base i) else HRes.ok)).2.dispatched
      = List.range 10 ∧
    (Execute { defaultBatchConfig with IgnoreError := true } quietSched
        (List.range 10)
        (fun i _ => if i = 2 ∨ i = 5 ∨ i = 7 then HRes.fail (GoErr.base i) else HRes.ok)).1
      = some (GoErr.batchWrap 3 (GoErr.itemWrap 2 (GoErr.base 2))) := by
  constructor
  · have h := (collect_and_continue_spec { defaultBatchConfig with IgnoreError := true }
      quietSched (List.range 10)
      (fun i _ => if i = 2 ∨ i = 5 ∨ i = 7 then HRes.fail (GoErr.base i) else HRes.ok)
      rfl (by decide) (fun _ => rfl) (fun _ => rfl)).1
    simpa using h
  · have h := (collect_and_continue_spec { defaultBatchConfig with IgnoreError := true }
      quietSched (List.range 10)
      (fun i _ => if i = 2 ∨ i = 5 ∨ i = 7 then HRes.fail (GoErr.base i) else HRes.ok)
      rfl (by decide) (fun _ => rfl) (fun _ => rfl)).2.2.2
      (GoErr.itemWrap 2 (GoErr.base 2))
      [GoErr.itemWrap 5 (GoErr.base 5), GoErr.itemWrap 7 (GoErr.base 7)] (by rfl)
    simpa using h

/-!  Provenance invariants for the fail-fast analysis.  -/

theorem processResult_inv {T : Type} (cfg : BatchConfig) (handler : Nat → T → HRes)
    (items : List T) (st : ExecState) (i : Nat) (r : HRes)
    (hq : ∃ v, items.get? i = some v ∧ r = handler i v ∧ i ∈ st.dispatched)
    (h1 : pendOK handler items st) (h2 : firstOK handler items st) :
    pendOK handler items (processResult cfg st i r)
      ∧ firstOK handler items (processResult cfg st i r) := by
  constructor
  · intro q hqmem
    rw [processResult_pending] at hqmem
    obtain ⟨v, hv1, hv2, hv3⟩ := h1 q hqmem
    exact ⟨v, hv1, hv2, by rw [processResult_dispatched]; exact hv3⟩
  · intro e he
    rw [processResult_dispatched]
    cases r with
    | ok => exact h2 e he
    | panicked => exact h2 e he
    | fail e2 =>
        by_cases hig : cfg.IgnoreError = true
        · rw [processResult_firstErr_ignore cfg st i _ hig] at he
          exact h2 e he
        · simp only [processResult] at he
          rw [if_neg hig] at he
          cases hf : st.firstErr with
          | some e3 =>
              rw [hf] at he
              simp at he
              exact h2 e he
          | none =>
              rw [hf] at he
              simp at he
              obtain ⟨v, hv1, hv2, hv3⟩ := hq
              refine ⟨i, v, hv1, ?_, hv3⟩
              rw [← hv2, he]

theorem completeAt_inv {T : Type} (cfg : BatchConfig) (handler : Nat → T → HRes)
    (items : List T) (st : ExecState) (p : Nat)
    (h1 : pendOK handler items st) (h2 : firstOK handler items st) :
    pendOK handler items (completeAt cfg st p) ∧ firstOK handler items (completeAt cfg st p) := by
  unfold completeAt
  cases hq : st.pending.get? p with
  | none => exact ⟨h1, h2⟩
  | some q =>
      have hmem : q ∈ st.pending := List.get?_mem hq
      obtain ⟨v, hv1, hv2, hv3⟩ := h1 q hmem
      have h1e : pendOK handler items { st with pending := st.pending.eraseIdx p } := by
        intro q2 hq2
        have : q2 ∈ st.pending :=
          (List.eraseIdx_sublist st.pending p).subset hq2
        exact h1 q2 this
      have h2e : firstOK handler items { st with pending := st.pending.eraseIdx p } := h2
      exact processResult_inv cfg handler items _ q.1 q.2 ⟨v, hv1, hv2, hv3⟩ h1e h2e

theorem completeMany_inv {T : Type} (cfg : BatchConfig) (handler : Nat → T → HRes)
    (items : List T) (ps : List Nat) (st : ExecState)
    (h1 : pendOK handler items st) (h2 : firstOK handler items st) :
    pendOK handler items (completeMany cfg st ps)
      ∧ firstOK handler items (completeMany cfg st ps) := by
  induction ps generalizing st with
  | nil => exact ⟨h1, h2⟩
  | cons p ps ih =>
      obtain ⟨g1, g2⟩ := completeAt_inv cfg handler items st p h1 h2
      exact ih _ g1 g2

theorem drainN_inv {T : Type} (cfg : BatchConfig) (handler : Nat → T → HRes)
    (items : List T) (n : Nat) (st : ExecState)
    (h1 : pendOK handler items st) (h2 : firstOK handler items st) :
    pendOK handler items (drainN cfg n st) ∧ firstOK handler items (drainN cfg n st) := by
  induction n generalizing st with
  | zero => exact ⟨h1, h2⟩
  | succ n ih =>
      unfold drainN
      cases hp : st.pending with
      | nil => exact ⟨h1, h2⟩
      | cons q rest =>
          have hmem : q ∈ st.pending := by rw [hp]; exact List.mem_cons_self q rest
          obtain ⟨v, hv1, hv2, hv3⟩ := h1 q hmem
          have h1r : pendOK handler items { st with pending := rest } := by
            intro q2 hq2
            have : q2 ∈ st.pending := by rw [hp]; exact List.mem_cons_of_mem q hq2
            exact h1 q2 this
          have h2r : firstOK handler items { st with pending := rest } := h2
          obtain ⟨g1, g2⟩ := processResult_inv cfg handler items
            { st with pending := rest } q.1 q.2 ⟨v, hv1, hv2, hv3⟩ h1r h2r
          exact ih _ g1 g2

theorem drainToLimit_inv {T : Type} (cfg : BatchConfig) (handler : Nat → T → HRes)
    (items : List T) (limit : Nat) (st : ExecState)
    (h1 : pendOK handler items st) (h2 : firstOK handler items st) :
    pendOK handler items (drainToLimit cfg limit st)
      ∧ firstOK handler items (drainToLimit cfg limit st) := by
  unfold drainToLimit
  split
  · exact ⟨h1, h2⟩
  · exact drainN_inv cfg handler items _ st h1 h2

theorem gWait_inv {T : Type} (cfg : BatchConfig) (handler : Nat → T → HRes)
    (items : List T) (sched : Sched) (st : ExecState)
    (h1 : pendOK handler items st) (h2 : firstOK handler items st) :
    pendOK handler items (gWait cfg sched st) ∧ firstOK handler items (gWait cfg sched st) := by
  unfold gWait
  obtain ⟨g1, g2⟩ := completeMany_inv cfg handler items sched.waitCompletions st h1 h2
  exact drainN_inv cfg handler items _ _ g1 g2

theorem loopCheck_inv {T : Type} (cfg : BatchConfig) (sched : Sched)
    (handler : Nat → T → HRes) (items : List T) (i : Nat) (st : ExecState)
    (h1 : pendOK handler items st) (h2 : firstOK handler items st) :
    pendOK handler items (loopCheck cfg sched i st)
      ∧ firstOK handler items (loopCheck cfg sched i st) := by
  obtain ⟨g1, g2⟩ := completeMany_inv cfg handler items (sched.completions i) st h1 h2
  constructor
  · intro q hq
    exact g1 q hq
  · intro e he
    exact g2 e he

theorem loopSpawn_inv {T : Type} (cfg : BatchConfig) (handler : Nat → T → HRes)
    (items : List T) (i : Nat) (v : T) (st : ExecState) (hv : items.get? i = some v)
    (h1 : pendOK handler items st) (h2 : firstOK handler items st) :
    pendOK handler items (loopSpawn cfg handler i v st)
      ∧ firstOK handler items (loopSpawn cfg handler i v st) := by
  obtain ⟨g1, g2⟩ := drainToLimit_inv cfg handler items (limitOf cfg) st h1 h2
  constructor
  · intro q hq
    rw [loopSpawn_pending] at hq
    rw [List.mem_append] at hq
    cases hq with
    | inl hq =>
        obtain ⟨v2, hv1, hv2, hv3⟩ := g1 q hq
        refine ⟨v2, hv1, hv2, ?_⟩
        rw [loopSpawn_dispatched, ← drainToLimit_dispatched cfg (limitOf cfg) st]
        exact List.mem_append_left _ hv3
    | inr hq =>
        rw [List.mem_singleton] at hq
        subst hq
        refine ⟨v, hv, rfl, ?_⟩
        rw [loopSpawn_dispatched]
        exact List.mem_append_right _ (List.mem_singleton.mpr rfl)
  · intro e he
    have he2 : (drainToLimit cfg (limitOf cfg) st).firstErr = some e := he
    obtain ⟨j, v2, hv1, hv2, hv3⟩ := g2 e he2
    refine ⟨j, v2, hv1, hv2, ?_⟩
    rw [loopSpawn_dispatched, ← drainToLimit_dispatched cfg (limitOf cfg) st]
    exact List.mem_append_left _ hv3

theorem dispatchLoop_inv {T : Type} (cfg : BatchConfig) (sched : Sched)
    (handler : Nat → T → HRes) (items : List T) :
    ∀ (rest : List T) (i : Nat) (st : ExecState),
      (∀ k, rest.get? k = items.get? (i + k)) →
      pendOK handler items st → firstOK handler items st →
      pendOK handler items (dispatchLoop cfg sched handler i rest st)
        ∧ firstOK handler items (dispatchLoop cfg sched handler i rest st) := by
  intro rest
  induction rest with
  | nil => intro i st _ h1 h2; exact ⟨h1, h2⟩
  | cons v rest ih =>
      intro i st hsuf h1 h2
      obtain ⟨g1, g2⟩ := loopCheck_inv cfg sched handler items i st h1 h2
      by_cases hctx : ctxCancelled (loopCheck cfg sched i st) = true
      · rw [dispatchLoop_cons_break cfg sched handler i v rest st hctx]
        exact ⟨g1, g2⟩
      · have hctx2 : ctxCancelled (loopCheck cfg sched i st) = false := by
          revert hctx; cases ctxCancelled (loopCheck cfg sched i st) <;> simp
        cases hl : (if limiterOn cfg then sched.limiterFail i else none) with
        | some e =>
            rw [dispatchLoop_cons_abort cfg sched handler i v rest st hctx2 e hl]
            constructor
            · intro q hq
              exact g1 q hq
            · intro e2 he2
              exact g2 e2 he2
        | none =>
            rw [dispatchLoop_cons_go cfg sched handler i v rest st hctx2 hl]
            have hv : items.get? i = some v := by
              have := hsuf 0
              simpa using this.symm
            obtain ⟨k1, k2⟩ := loopSpawn_inv cfg handler items i v _ hv g1 g2
            refine ih (i + 1) _ ?_ k1 k2
            intro k
            have := hsuf (k + 1)
            have harith : i + (k + 1) = i + 1 + k := by omega
            rw [harith] at this
            exact this

theorem waitOutcome_failfast (cfg : BatchConfig) (st : ExecState)
    (hI : cfg.IgnoreError = false) :
    waitOutcome cfg st = st.firstErr := by
  unfold waitOutcome
  cases h : st.firstErr with
  | some e => rfl
  | none => simp [hI]

/-!  Claim C4 — fail-fast.  -/

/-- C4: with the fail-fast policy, on a run without external cancellation or
limiter failure: dispatch is an in-order prefix of the input (a halt only
cuts off a suffix); `Execute` returns exactly the errgroup's first recorded
failure; that failure, when present, is the unmodified error value returned
by the handler of some dispatched item; every already-dispatched invocation
has run to completion by the time `Execute` returns (none is forcibly
aborted); and a strict suffix of the input is left undispatched only when a
returned failure cancelled the derived context. -/
theorem fail_fast_spec {T : Type} (cfg : BatchConfig) (sched : Sched)
    (items : List T) (handler : Nat → T → HRes)
    (hI : cfg.IgnoreError = false) (hc : 1 ≤ cfg.Concurrency)
    (hP : ∀ j, sched.pCancelAt j = false) (hL : ∀ j, sched.limiterFail j = none) :
    (Execute cfg sched items handler).2.dispatched
        = List.range (Execute cfg sched items handler).2.dispatched.length ∧
    (Execute cfg sched items handler).2.dispatched.length ≤ items.length ∧
    (Execute cfg sched items handler).1 = (Execute cfg sched items handler).2.firstErr ∧
    (∀ e, (Execute cfg sched items handler).2.firstErr = some e →
      ∃ i v, items.get? i = some v ∧ handler i v = HRes.fail e
        ∧ i ∈ (Execute cfg sched items handler).2.dispatched) ∧
    (Execute cfg sched items handler).2.pending = [] ∧
    ((Execute cfg sched items handler).2.dispatched.length < items.length →
      (Execute cfg sched items handler).2.firstErr ≠ none) := by
  cases items with
  | nil =>
      refine ⟨rfl, by simp [Execute, emptyExecState], rfl, ?_, rfl, ?_⟩
      · intro e he
        exact absurd he (by simp [Execute, emptyExecState])
      · intro h
        exact absurd h (by simp [Execute, emptyExecState])
  | cons v vs =>
      have hAb : (dispatchLoop cfg sched handler 0 (v :: vs) (initExecState cfg)).limiterAbort
          = none := by
        rw [dispatchLoop_limiterAbort_none cfg sched handler hL]
        rfl
      have hE := Execute_cons_wait cfg sched v vs handler hAb
      obtain ⟨m, hm, hd, hcause⟩ :=
        dispatchLoop_prefix cfg sched handler (v :: vs) 0 (initExecState cfg)
      have hdg : (gWait cfg sched
            (dispatchLoop cfg sched handler 0 (v :: vs) (initExecState cfg))).dispatched
          = List.range m := by
        rw [gWait_dispatched, hd, idxSeg_zero]
        rfl
      have hlen : (gWait cfg sched
            (dispatchLoop cfg sched handler 0 (v :: vs) (initExecState cfg))).dispatched.length
          = m := by
        rw [hdg, List.length_range]
      obtain ⟨hinv1, hinv2⟩ :=
        dispatchLoop_inv cfg sched handler (v :: vs) (v :: vs) 0 (initExecState cfg)
          (fun k => by simp)
          (fun q hq => absurd hq (by simp [initExecState, emptyExecState]))
          (fun e he => absurd he (by simp [initExecState, emptyExecState]))
      obtain ⟨hw1, hw2⟩ :=
        gWait_inv cfg handler (v :: vs) sched _ hinv1 hinv2
      refine ⟨?_, ?_, ?_, ?_, ?_, ?_⟩
      · rw [hE, hlen, hdg]
      · rw [hE, hlen]
        exact hm
      · rw [hE]
        exact waitOutcome_failfast cfg _ hI
      · intro e he
        rw [hE] at he ⊢
        exact hw2 e he
      · rw [hE]
        exact gWait_pending cfg sched _
      · intro hlt
        rw [hE] at hlt ⊢
        rw [hlen] at hlt
        rcases hcause hlt with hcl | ⟨e, habort⟩
        · have hpc : (dispatchLoop cfg sched handler 0 (v :: vs)
              (initExecState cfg)).parentCancelled = false := by
            rw [dispatchLoop_parentCancelled_false cfg sched handler hP]
            rfl
          unfold ctxCancelled at hcl
          rw [hpc] at hcl
          simp only [Bool.false_or, Option.isSome_iff_exists] at hcl
          obtain ⟨e, he⟩ := hcl
          rw [gWait_firstErr_mono cfg sched _ e he]
          simp
        · rw [hAb] at habort
          exact absurd habort (by simp)

/-- C4 witness: five items under fail-fast, item 1 failing, sequential
concurrency: the failure is returned as-is, dispatch halts after item 2, and
no invocation is left unfinished. -/
theorem fail_fast_witness :
    (Execute { defaultBatchConfig with Concurrency := 1 } quietSched (List.range 5)
        (fun i _ => if i = 1 then HRes.fail (GoErr.base 99) else HRes.ok)).1
      = some (GoErr.base 99) ∧
    (Execute { defaultBatchConfig with Concurrency := 1 } quietSched (List.range 5)
        (fun i _ => if i = 1 then HRes.fail (GoErr.base 99) else HRes.ok)).2.dispatched
      = List.range 3 ∧
    (Execute { defaultBatchConfig with Concurrency := 1 } quietSched (List.range 5)
        (fun i _ => if i = 1 then HRes.fail (GoErr.base 99) else HRes.ok)).2.pending = [] := by
  have h := fail_fast_spec { defaultBatchConfig with Concurrency := 1 } quietSched
    (List.range 5) (fun i _ => if i = 1 then HRes.fail (GoErr.base 99) else HRes.ok)
    rfl (by decide) (fun _ => rfl) (fun _ => rfl)
  refine ⟨?_, ?_, h.2.2.2.2.1⟩
  · have h3 := h.2.2.1
    rw [h3]
    rfl
  · have h1 := h.1
    rw [h1]
    rfl

/-!  Claim C5 — admission failure escalates.  -/

theorem completeAt_nofail (cfg : BatchConfig) (st : ExecState) (p : Nat)
    (hnf : ∀ q ∈ st.pending, ∀ e0, q.2 ≠ HRes.fail e0) (hfe : st.firstErr = none) :
    (completeAt cfg st p).firstErr = none
      ∧ ∀ q ∈ (completeAt cfg st p).pending, ∀ e0, q.2 ≠ HRes.fail e0 := by
  unfold completeAt
  cases hq : st.pending.get? p with
  | none => exact ⟨hfe, hnf⟩
  | some q =>
      have hmem : q ∈ st.pending := List.get?_mem hq
      have hsub : ∀ q2 ∈ st.pending.eraseIdx p, ∀ e0, q2.2 ≠ HRes.fail e0 := by
        intro q2 hq2
        exact hnf q2 ((List.eraseIdx_sublist st.pending p).subset hq2)
      constructor
      · cases hr : q.2 with
        | ok => simpa [processResult, hr] using hfe
        | panicked => simpa [processResult, hr] using hfe
        | fail e0 => exact absurd hr (by simpa using hnf q hmem e0)
      · intro q2 hq2
        rw [processResult_pending] at hq2
        exact hsub q2 hq2

theorem completeMany_nofail (cfg : BatchConfig) (ps : List Nat) (st : ExecState)
    (hnf : ∀ q ∈ st.pending, ∀ e0, q.2 ≠ HRes.fail e0) (hfe : st.firstErr = none) :
    (completeMany cfg st ps).firstErr = none
      ∧ ∀ q ∈ (completeMany cfg st ps).pending, ∀ e0, q.2 ≠ HRes.fail e0 := by
  induction ps generalizing st with
  | nil => exact ⟨hfe, hnf⟩
  | cons p ps ih =>
      obtain ⟨g1, g2⟩ := completeAt_nofail cfg st p hnf hfe
      exact ih _ g2 g1

theorem drainN_nofail (cfg : BatchConfig) (n : Nat) (st : ExecState)
    (hnf : ∀ q ∈ st.pending, ∀ e0, q.2 ≠ HRes.fail e0) (hfe : st.firstErr = none) :
    (drainN cfg n st).firstErr = none
      ∧ ∀ q ∈ (drainN cfg n st).pending, ∀ e0, q.2 ≠ HRes.fail e0 := by
  induction n generalizing st with
  | zero => exact ⟨hfe, hnf⟩
  | succ n ih =>
      unfold drainN
      cases hp : st.pending with
      | nil => exact ⟨hfe, hnf⟩
      | cons q rest =>
          have hqmem : q ∈ st.pending := by rw [hp]; exact List.mem_cons_self q rest
          have hrest : ∀ q2 ∈ rest, ∀ e0, q2.2 ≠ HRes.fail e0 := by
            intro q2 hq2
            exact hnf q2 (by rw [hp]; exact List.mem_cons_of_mem q hq2)
          have hnew : (processResult cfg { st with pending := rest } q.1 q.2).firstErr
              = none := by
            cases hr : q.2 with
            | ok => simpa [processResult, hr] using hfe
            | panicked => simpa [processResult, hr] using hfe
            | fail e0 => exact absurd hr (by simpa using hnf q hqmem e0)
          have hpend2 : ∀ q2 ∈ (processResult cfg { st with pending := rest } q.1 q.2).pending,
              ∀ e0, q2.2 ≠ HRes.fail e0 := by
            intro q2 hq2
            rw [processResult_pending] at hq2
            exact hrest q2 hq2
          exact ih _ hpend2 hnew

theorem drainToLimit_nofail (cfg : BatchConfig) (limit : Nat) (st : ExecState)
    (hnf : ∀ q ∈ st.pending, ∀ e0, q.2 ≠ HRes.fail e0) (hfe : st.firstErr = none) :
    (drainToLimit cfg limit st).firstErr = none
      ∧ ∀ q ∈ (drainToLimit cfg limit st).pending, ∀ e0, q.2 ≠ HRes.fail e0 := by
  unfold drainToLimit
  split
  · exact ⟨hfe, hnf⟩
  · exact drainN_nofail cfg _ st hnf hfe

theorem dispatchLoop_reach {T : Type} (cfg : BatchConfig) (sched : Sched)
    (handler : Nat → T → HRes) (items : List T)
    (hR : limiterOn cfg = true) (hP : ∀ j, sched.pCancelAt j = false)
    (tgt : Nat) (e : GoErr) (hfail : sched.limiterFail tgt = some e)
    (hbefore : ∀ j, j < tgt → sched.limiterFail j = none)
    (hNoFail : ∀ j v, j < tgt → items.get? j = some v → ∀ e0, handler j v ≠ HRes.fail e0) :
    ∀ (rest : List T) (i : Nat) (st : ExecState),
      (∀ k, rest.get? k = items.get? (i + k)) →
      i ≤ tgt → tgt < i + rest.length →
      st.firstErr = none → st.parentCancelled = false →
      st.dispatched = List.range i →
      (∀ q ∈ st.pending, ∀ e0, q.2 ≠ HRes.fail e0) →
      (dispatchLoop cfg sched handler i rest st).limiterAbort = some (tgt, e)
        ∧ (dispatchLoop cfg sched handler i rest st).dispatched = List.range tgt := by
  intro rest
  induction rest with
  | nil =>
      intro i st _ hle hlt _ _ _ _
      simp at hlt
      omega
  | cons v rest ih =>
      intro i st hsuf hle hlt hfe hpc hdisp hnf
      obtain ⟨gfe, gnf⟩ := completeMany_nofail cfg (sched.completions i) st hnf hfe
      have hchkF : (loopCheck cfg sched i st).firstErr = none := gfe
      have hchkP : (loopCheck cfg sched i st).parentCancelled = false := by
        rw [loopCheck_parentCancelled, hP i, hpc]
        rfl
      have hctx : ctxCancelled (loopCheck cfg sched i st) = false := by
        unfold ctxCancelled
        rw [hchkF, hchkP]
        rfl
      by_cases heq : i = tgt
      · subst heq
        have hl : (if limiterOn cfg then sched.limiterFail i else none) = some e := by
          rw [hR]
          simpa using hfail
        rw [dispatchLoop_cons_abort cfg sched handler i v rest st hctx e hl]
        constructor
        · rfl
        · show (loopCheck cfg sched i st).dispatched = List.range i
          rw [loopCheck_dispatched, hdisp]
      · have hilt : i < tgt := by omega
        have hl : (if limiterOn cfg then sched.limiterFail i else none) = none := by
          rw [hR]
          simpa using hbefore i hilt
        rw [dispatchLoop_cons_go cfg sched handler i v rest st hctx hl]
        have hv : items.get? i = some v := by
          have := hsuf 0
          simpa using this.symm
        obtain ⟨g3, g4⟩ := drainToLimit_nofail cfg (limitOf cfg) (loopCheck cfg sched i st)
          (fun q hq => gnf q hq) hchkF
        have hsF : (loopSpawn cfg handler i v (loopCheck cfg sched i st)).firstErr = none := g3
        have hsP : (loopSpawn cfg handler i v (loopCheck cfg sched i st)).parentCancelled
            = false := by
          rw [loopSpawn_parentCancelled, hchkP]
        have hsD : (loopSpawn cfg handler i v (loopCheck cfg sched i st)).dispatched
            = List.range (i + 1) := by
          rw [loopSpawn_dispatched, loopCheck_dispatched, hdisp, List.range_succ]
        have hsNF : ∀ q ∈ (loopSpawn cfg handler i v (loopCheck cfg sched i st)).pending,
            ∀ e0, q.2 ≠ HRes.fail e0 := by
          intro q hq
          rw [loopSpawn_pending, List.mem_append] at hq
          cases hq with
          | inl hq => exact g4 q hq
          | inr hq =>
              rw [List.mem_singleton] at hq
              subst hq
              exact hNoFail i v hilt hv
        refine ih (i + 1) _ ?_ (by omega) (by simp at hlt ⊢; omega) hsF hsP hsD hsNF
        intro k
        have := hsuf (k + 1)
        have harith : i + (k + 1) = i + 1 + k := by omega
        rw [harith] at this
        exact this

/-- C5: if the rate limiter's blocking wait is cancelled while admitting the
item at position `i` (the waits before it having been granted, the handlers
before it not failing, and no external cancellation visible at the checks),
`Execute` immediately returns the dispatcher-level failure tagged with index
`i`, having dispatched exactly the items before `i` and nothing further —
whatever the configured error policy. -/
theorem limiter_cancel_escalates {T : Type} (cfg : BatchConfig) (sched : Sched)
    (items : List T) (handler : Nat → T → HRes)
    (hR : limiterOn cfg = true) (hP : ∀ j, sched.pCancelAt j = false)
    (i : Nat) (e : GoErr) (hfail : sched.limiterFail i = some e)
    (hbefore : ∀ j, j < i → sched.limiterFail j = none)
    (hlen : i < items.length)
    (hNoFail : ∀ j v, j < i → items.get? j = some v → ∀ e0, handler j v ≠ HRes.fail e0) :
    (Execute cfg sched items handler).1 = some (GoErr.rateWrap i e) ∧
    (Execute cfg sched items handler).2.dispatched = List.range i := by
  cases items with
  | nil => simp at hlen
  | cons v vs =>
      obtain ⟨hab, hdisp⟩ := dispatchLoop_reach cfg sched handler (v :: vs) hR hP i e hfail
        hbefore hNoFail (v :: vs) 0 (initExecState cfg)
        (fun k => by simp) (by omega) (by simpa using hlen) rfl rfl rfl
        (fun q hq => absurd hq (by simp [initExecState, emptyExecState]))
      have hE := Execute_cons_abort cfg sched v vs handler (i, e) hab
      rw [hE]
      exact ⟨rfl, hdisp⟩

/-- C5 witness: concurrency 2, a finite rate, three items, handlers that
never fail; the wait for item 1 is cancelled.  `Execute` returns the failure
tagged with index 1 under both error policies, having dispatched only
item 0. -/
theorem limiter_cancel_escalates_witness :
    (Execute { Concurrency := 2, RateLimit := RateLimitVal.pos 5, Burst := 1, IgnoreError := false }
        { quietSched with limiterFail := fun j => if j = 1 then some (GoErr.base 7) else none }
        [10, 20, 30] (fun _ _ => HRes.ok)).1 = some (GoErr.rateWrap 1 (GoErr.base 7)) ∧
    (Execute { Concurrency := 2, RateLimit := RateLimitVal.pos 5, Burst := 1, IgnoreError := true }
        { quietSched with limiterFail := fun j => if j = 1 then some (GoErr.base 7) else none }
        [10, 20, 30] (fun _ _ => HRes.ok)).1 = some (GoErr.rateWrap 1 (GoErr.base 7)) := by
  constructor
  · exact (limiter_cancel_escalates
      { Concurrency := 2, RateLimit := RateLimitVal.pos 5, Burst := 1, IgnoreError := false }
      { quietSched with limiterFail := fun j => if j = 1 then some (GoErr.base 7) else none }
      [10, 20, 30] (fun _ _ => HRes.ok) rfl (fun _ => rfl) 1 (GoErr.base 7) rfl
      (fun j hj => by
        have : j = 0 := by omega
        subst this
        rfl)
      (by decide)
      (fun j v hj hv e0 h => HRes.noConfusion h)).1
  · exact (limiter_cancel_escalates
      { Concurrency := 2, RateLimit := RateLimitVal.pos 5, Burst := 1, IgnoreError := true }
      { quietSched with limiterFail := fun j => if j = 1 then some (GoErr.base 7) else none }
      [10, 20, 30] (fun _ _ => HRes.ok) rfl (fun _ => rfl) 1 (GoErr.base 7) rfl
      (fun j hj => by
        have : j = 0 := by omega
        subst this
        rfl)
      (by decide)
      (fun j v hj hv e0 h => HRes.noConfusion h)).1

/-!  Claim C6 — panic isolation: a run whose handler panics behaves exactly
like the run whose handler returns no error at those invocations, except
for the diagnostic panic log.  -/

theorem map_eraseIdx_comm {α β : Type} (f : α → β) :
    ∀ (l : List α) (p : Nat), (l.map f).eraseIdx p = (l.eraseIdx p).map f := by
  intro l
  induction l with
  | nil => intro p; cases p <;> rfl
  | cons x xs ih =>
      intro p
      cases p with
      | zero => rfl
      | succ p =>
          show f x :: (xs.map f).eraseIdx p = f x :: (xs.eraseIdx p).map f
          rw [ih]

theorem stripPanics_pending (st : ExecState) :
    (stripPanics st).pending = st.pending.map (fun q => (q.1, depanicR q.2)) := rfl

theorem processResult_depanic (cfg : BatchConfig) (st : ExecState) (i : Nat) (r : HRes) :
    processResult cfg (stripPanics st) i (depanicR r)
      = stripPanics (processResult cfg st i r) := by
  cases r with
  | ok => rfl
  | panicked => rfl
  | fail e =>
      show processResult cfg (stripPanics st) i (HRes.fail e)
        = stripPanics (processResult cfg st i (HRes.fail e))
      by_cases hig : cfg.IgnoreError = true
      · simp only [processResult, if_pos hig]
        rfl
      · simp only [processResult, if_neg hig]
        have hfe : (stripPanics st).firstErr = st.firstErr := rfl
        rw [hfe]
        cases hf : st.firstErr with
        | none => rfl
        | some e2 => rfl

theorem completeAt_depanic (cfg : BatchConfig) (st : ExecState) (p : Nat) :
    completeAt cfg (stripPanics st) p = stripPanics (completeAt cfg st p) := by
  unfold completeAt
  have hget : (stripPanics st).pending.get? p
      = (st.pending.get? p).map (fun q => (q.1, depanicR q.2)) := by
    rw [stripPanics_pending, List.get?_map]
  cases hq : st.pending.get? p with
  | none =>
      rw [hget, hq]
      rfl
  | some q =>
      obtain ⟨i, r⟩ := q
      rw [hget, hq]
      show processResult cfg
          { stripPanics st with pending := (stripPanics st).pending.eraseIdx p } i (depanicR r)
        = stripPanics (processResult cfg { st with pending := st.pending.eraseIdx p } i r)
      have hrec : ({ stripPanics st with
          pending := (stripPanics st).pending.eraseIdx p } : ExecState)
          = stripPanics { st with pending := st.pending.eraseIdx p } := by
        show ({ stripPanics st with
            pending := (st.pending.map (fun q => (q.1, depanicR q.2))).eraseIdx p } : ExecState) = _
        rw [map_eraseIdx_comm]
        rfl
      rw [hrec, processResult_depanic]

theorem completeMany_depanic (cfg : BatchConfig) (ps : List Nat) (st : ExecState) :
    completeMany cfg (stripPanics st) ps = stripPanics (completeMany cfg st ps) := by
  induction ps generalizing st with
  | nil => rfl
  | cons p ps ih =>
      show completeMany cfg (completeAt cfg (stripPanics st) p) ps = _
      rw [completeAt_depanic, ih]
      rfl

theorem drainN_depanic (cfg : BatchConfig) :
    ∀ (n : Nat) (st : ExecState), drainN cfg n (stripPanics st) = stripPanics (drainN cfg n st) := by
  intro n
  induction n with
  | zero => intro st; rfl
  | succ n ih =>
      intro st
      show drainN cfg (n + 1) (stripPanics st) = stripPanics (drainN cfg (n + 1) st)
      unfold drainN
      rw [stripPanics_pending]
      cases hp : st.pending with
      | nil => rfl
      | cons q rest =>
          obtain ⟨i, r⟩ := q
          simp only [List.map_cons]
          have hrec : ({ stripPanics st with
              pending := rest.map (fun q => (q.1, depanicR q.2)) } : ExecState)
              = stripPanics { st with pending := rest } := rfl
          show drainN cfg n (processResult cfg
              { stripPanics st with pending := rest.map (fun q => (q.1, depanicR q.2)) }
              i (depanicR r))
            = stripPanics (drainN cfg n (processResult cfg { st with pending := rest } i r))
          rw [hrec, processResult_depanic, ih]

theorem drainToLimit_depanic (cfg : BatchConfig) (limit : Nat) (st : ExecState) :
    drainToLimit cfg limit (stripPanics st) = stripPanics (drainToLimit cfg limit st) := by
  unfold drainToLimit
  have hlen : (stripPanics st).pending.length = st.pending.length := by
    rw [stripPanics_pending, List.length_map]
  rw [hlen]
  split
  · rfl
  · rw [drainN_depanic]

theorem gWait_depanic (cfg : BatchConfig) (sched : Sched) (st : ExecState) :
    gWait cfg sched (stripPanics st) = stripPanics (gWait cfg sched st) := by
  show drainN cfg (completeMany cfg (stripPanics st) sched.waitCompletions).pending.length
      (completeMany cfg (stripPanics st) sched.waitCompletions)
    = stripPanics (drainN cfg (completeMany cfg st sched.waitCompletions).pending.length
      (completeMany cfg st sched.waitCompletions))
  rw [completeMany_depanic]
  have hlen : (stripPanics (completeMany cfg st sched.waitCompletions)).pending.length
      = (completeMany cfg st sched.waitCompletions).pending.length := by
    rw [stripPanics_pending, List.length_map]
  rw [hlen, drainN_depanic]

theorem loopCheck_depanic (cfg : BatchConfig) (sched : Sched) (i : Nat) (st : ExecState) :
    loopCheck cfg sched i (stripPanics st) = stripPanics (loopCheck cfg sched i st) := by
  unfold loopCheck
  rw [completeMany_depanic]
  rfl

theorem ctxCancelled_strip (st : ExecState) :
    ctxCancelled (stripPanics st) = ctxCancelled st := rfl

theorem loopSpawn_depanic {T : Type} (cfg : BatchConfig) (handler : Nat → T → HRes)
    (i : Nat) (v : T) (st : ExecState) :
    loopSpawn cfg (depanic handler) i v (stripPanics st)
      = stripPanics (loopSpawn cfg handler i v st) := by
  unfold loopSpawn
  rw [drainToLimit_depanic]
  show ({ stripPanics (drainToLimit cfg (limitOf cfg) st) with
      pending := (stripPanics (drainToLimit cfg (limitOf cfg) st)).pending
        ++ [(i, depanic handler i v)],
      dispatched := (stripPanics (drainToLimit cfg (limitOf cfg) st)).dispatched ++ [i] }
      : ExecState) = _
  rw [stripPanics_pending]
  show ({ stripPanics (drainToLimit cfg (limitOf cfg) st) with
      pending := (drainToLimit cfg (limitOf cfg) st).pending.map (fun q => (q.1, depanicR q.2))
        ++ [(i, depanicR (handler i v))],
      dispatched := (drainToLimit cfg (limitOf cfg) st).dispatched ++ [i] } : ExecState) = _
  have hone : [(i, depanicR (handler i v))]
      = List.map (fun q : Nat × HRes => (q.1, depanicR q.2)) [(i, handler i v)] := rfl
  rw [hone, ← List.map_append]
  rfl

theorem dispatchLoop_depanic {T : Type} (cfg : BatchConfig) (sched : Sched)
    (handler : Nat → T → HRes) :
    ∀ (rest : List T) (i : Nat) (st : ExecState),
      dispatchLoop cfg sched (depanic handler) i rest (stripPanics st)
        = stripPanics (dispatchLoop cfg sched handler i rest st) := by
  intro rest
  induction rest with
  | nil => intro i st; rfl
  | cons v rest ih =>
      intro i st
      have hcc : ctxCancelled (loopCheck cfg sched i (stripPanics st))
          = ctxCancelled (loopCheck cfg sched i st) := by
        rw [loopCheck_depanic, ctxCancelled_strip]
      by_cases hctx : ctxCancelled (loopCheck cfg sched i st) = true
      · rw [dispatchLoop_cons_break cfg sched (depanic handler) i v rest (stripPanics st)
          (by rw [hcc]; exact hctx)]
        rw [dispatchLoop_cons_break cfg sched handler i v rest st hctx]
        rw [loopCheck_depanic]
      · have hctx2 : ctxCancelled (loopCheck cfg sched i st) = false := by
          revert hctx; cases ctxCancelled (loopCheck cfg sched i st) <;> simp
        cases hl : (if limiterOn cfg then sched.limiterFail i else none) with
        | some e =>
            rw [dispatchLoop_cons_abort cfg sched (depanic handler) i v rest (stripPanics st)
              (by rw [hcc]; exact hctx2) e hl]
            rw [dispatchLoop_cons_abort cfg sched handler i v rest st hctx2 e hl]
            rw [loopCheck_depanic]
            rfl
        | none =>
            rw [dispatchLoop_cons_go cfg sched (depanic handler) i v rest (stripPanics st)
              (by rw [hcc]; exact hctx2) hl]
            rw [dispatchLoop_cons_go cfg sched handler i v rest st hctx2 hl]
            rw [loopCheck_depanic, loopSpawn_depanic, ih]

theorem waitOutcome_strip (cfg : BatchConfig) (st : ExecState) :
    waitOutcome cfg (stripPanics st) = waitOutcome cfg st := rfl

theorem Execute_depanic {T : Type} (cfg : BatchConfig) (sched : Sched)
    (items : List T) (handler : Nat → T → HRes) :
    Execute cfg sched items (depanic handler)
      = ((Execute cfg sched items handler).1,
         stripPanics (Execute cfg sched items handler).2) := by
  cases items with
  | nil => rfl
  | cons v vs =>
      have hinit : stripPanics (initExecState cfg) = initExecState cfg := rfl
      have hloop : dispatchLoop cfg sched (depanic handler) 0 (v :: vs) (initExecState cfg)
          = stripPanics (dispatchLoop cfg sched handler 0 (v :: vs) (initExecState cfg)) := by
        have hstep := dispatchLoop_depanic cfg sched handler (v :: vs) 0 (initExecState cfg)
        rw [hinit] at hstep
        exact hstep
      have habeq : (stripPanics (dispatchLoop cfg sched handler 0 (v :: vs)
          (initExecState cfg))).limiterAbort
          = (dispatchLoop cfg sched handler 0 (v :: vs) (initExecState cfg)).limiterAbort := rfl
      cases hab : (dispatchLoop cfg sched handler 0 (v :: vs) (initExecState cfg)).limiterAbort with
      | some ie =>
          rw [Execute_cons_abort cfg sched v vs (depanic handler) ie
              (by rw [hloop, habeq]; exact hab),
            Execute_cons_abort cfg sched v vs handler ie hab, hloop]
      | none =>
          rw [Execute_cons_wait cfg sched v vs (depanic handler)
              (by rw [hloop, habeq]; exact hab),
            Execute_cons_wait cfg sched v vs handler hab, hloop, gWait_depanic,
            waitOutcome_strip]

/-- C6: an uncontrolled fault (panic) during an item's handler invocation is
caught at the per-invocation boundary and treated as no failure for that
item: the run's outcome, accumulator, errgroup error and dispatched items
are exactly those of the run whose handler returns success at every
invocation that panicked — a panic never triggers fail-fast cancellation,
never enters the accumulator, and never stops any other item from being
dispatched and completing.  The only trace it leaves is the diagnostic log,
which (on the paths reaching `g.Wait`) records, up to completion order,
exactly the panicking dispatched invocations. -/
theorem panic_isolated_spec {T : Type} (cfg : BatchConfig) (sched : Sched)
    (items : List T) (handler : Nat → T → HRes) :
    (Execute cfg sched items (depanic handler)).1 = (Execute cfg sched items handler).1 ∧
    (Execute cfg sched items (depanic handler)).2.errs
      = (Execute cfg sched items handler).2.errs ∧
    (Execute cfg sched items (depanic handler)).2.firstErr
      = (Execute cfg sched items handler).2.firstErr ∧
    (Execute cfg sched items (depanic handler)).2.dispatched
      = (Execute cfg sched items handler).2.dispatched ∧
    ((Execute cfg sched items handler).2.limiterAbort = none →
      List.Perm (Execute cfg sched items handler).2.panicLog
        (panicIdxs ((resList handler 0 items).take
          (Execute cfg sched items handler).2.dispatched.length))) := by
  have hsim := Execute_depanic cfg sched items handler
  refine ⟨?_, ?_, ?_, ?_, ?_⟩
  · rw [hsim]
  · rw [hsim]
    rfl
  · rw [hsim]
    rfl
  · rw [hsim]
    rfl
  · intro hab
    cases items with
    | nil =>
        exact List.Perm.refl _
    | cons v vs =>
        cases habL : (dispatchLoop cfg sched handler 0 (v :: vs)
            (initExecState cfg)).limiterAbort with
        | some ie =>
            rw [Execute_cons_abort cfg sched v vs handler ie habL] at hab
            exact absurd (habL.symm.trans hab) (by simp)
        | none =>
            have hE := Execute_cons_wait cfg sched v vs handler habL
            rw [hE]
            obtain ⟨m, hm, hd2, hperm⟩ := dispatchLoop_tags cfg sched handler
              ExecState.panicLog panicTag
              (fun st i r => panicLog_processResult cfg st i r)
              (fun st l => rfl) (fun st b => rfl) (fun st x => rfl) (fun st l d => rfl)
              (v :: vs) 0 (initExecState cfg)
            have hgw := gWait_tags cfg ExecState.panicLog panicTag
              (fun st i r => panicLog_processResult cfg st i r)
              (fun st l => rfl) sched
              (dispatchLoop cfg sched handler 0 (v :: vs) (initExecState cfg))
            have hperm2 : List.Perm
                ((dispatchLoop cfg sched handler 0 (v :: vs) (initExecState cfg)).panicLog
                  ++ (dispatchLoop cfg sched handler 0 (v :: vs)
                      (initExecState cfg)).pending.filterMap panicTag)
                (((resList handler 0 (v :: vs)).take m).filterMap panicTag) := by
              simpa [initExecState, emptyExecState] using hperm
            have hlog : List.Perm
                (gWait cfg sched
                  (dispatchLoop cfg sched handler 0 (v :: vs) (initExecState cfg))).panicLog
                (((resList handler 0 (v :: vs)).take m).filterMap panicTag) :=
              hgw.trans hperm2
            have hlen : (gWait cfg sched
                (dispatchLoop cfg sched handler 0 (v :: vs)
                  (initExecState cfg))).dispatched.length = m := by
              rw [gWait_dispatched, hd2]
              simp [initExecState, emptyExecState, idxSeg_length]
            rw [hlen]
            exact hlog

/-- C6 witness: five items, the handler panicking on the item at position 3;
outcome and dispatch equal the panic-free run, and only the log records
index 3. -/
theorem panic_isolated_witness :
    (Execute defaultBatchConfig quietSched [0, 1, 2, 3, 4]
        (depanic (fun i _ => if i = 3 then HRes.panicked else HRes.ok))).1
      = (Execute defaultBatchConfig quietSched [0, 1, 2, 3, 4]
        (fun i _ => if i = 3 then HRes.panicked else HRes.ok)).1 ∧
    List.Perm
      (Execute defaultBatchConfig quietSched [0, 1, 2, 3, 4]
        (fun i _ => if i = 3 then HRes.panicked else HRes.ok)).2.panicLog
      (panicIdxs ((resList (fun i _ => if i = 3 then HRes.panicked else HRes.ok) 0
          [0, 1, 2, 3, 4]).take
        (Execute defaultBatchConfig quietSched [0, 1, 2, 3, 4]
          (fun i _ => if i = 3 then HRes.panicked else HRes.ok)).2.dispatched.length)) :=
  ⟨(panic_isolated_spec defaultBatchConfig quietSched [0, 1, 2, 3, 4]
      (fun i _ => if i = 3 then HRes.panicked else HRes.ok)).1,
   (panic_isolated_spec defaultBatchConfig quietSched [0, 1, 2, 3, 4]
      (fun i _ => if i = 3 then HRes.panicked else HRes.ok)).2.2.2.2 rfl⟩

/-!  Claim C10 — unwrapped fail-fast outcome vs index-wrapped accumulation.  -/

theorem mem_resList {T : Type} (handler : Nat → T → HRes) :
    ∀ (l : List T) (i : Nat) (q : Nat × HRes), q ∈ resList handler i l →
      ∃ k v, l.get? k = some v ∧ q = (i + k, handler (i + k) v) := by
  intro l
  induction l with
  | nil => intro i q h; simp [resList] at h
  | cons v rest ih =>
      intro i q h
      rw [resList] at h
      rw [List.mem_cons] at h
      cases h with
      | inl h =>
          refine ⟨0, v, rfl, ?_⟩
          rw [h]
          simp
      | inr h =>
          obtain ⟨k, v2, hget, heq⟩ := ih (i + 1) q h
          refine ⟨k + 1, v2, hget, ?_⟩
          have harith : i + 1 + k = i + (k + 1) := by omega
          rw [heq, harith]

/-- C10: under the fail-fast policy (with no limiter failure, so that the
returned value comes from the errgroup) the error `Execute` returns is
exactly the value some dispatched handler invocation returned — passed
through without any positional wrapping; under collect-and-continue, by
contrast, every entry of the accumulator is an index-wrapped
(`item %d failed`) version of the error the handler at that index
returned. -/
theorem fail_fast_unwrapped_spec {T : Type} :
    (∀ (cfg : BatchConfig) (sched : Sched) (items : List T) (handler : Nat → T → HRes),
      cfg.IgnoreError = false → (∀ j, sched.limiterFail j = none) →
      ∀ e, (Execute cfg sched items handler).1 = some e →
        ∃ i v, items.get? i = some v ∧ handler i v = HRes.fail e) ∧
    (∀ (cfg : BatchConfig) (sched : Sched) (items : List T) (handler : Nat → T → HRes),
      cfg.IgnoreError = true →
      ∀ x ∈ (Execute cfg sched items handler).2.errs,
        ∃ i e, x = GoErr.itemWrap i e
          ∧ ∃ v, items.get? i = some v ∧ handler i v = HRes.fail e) := by
  constructor
  · intro cfg sched items handler hI hL e he
    cases items with
    | nil => exact absurd he (by simp [Execute])
    | cons v vs =>
        have hAb : (dispatchLoop cfg sched handler 0 (v :: vs)
            (initExecState cfg)).limiterAbort = none := by
          rw [dispatchLoop_limiterAbort_none cfg sched handler hL]
          rfl
        have hE := Execute_cons_wait cfg sched v vs handler hAb
        rw [hE] at he
        have hfe : (gWait cfg sched (dispatchLoop cfg sched handler 0 (v :: vs)
            (initExecState cfg))).firstErr = some e := by
          rw [← waitOutcome_failfast cfg _ hI]
          exact he
        obtain ⟨hinv1, hinv2⟩ :=
          dispatchLoop_inv cfg sched handler (v :: vs) (v :: vs) 0 (initExecState cfg)
            (fun k => by simp)
            (fun q hq => absurd hq (by simp [initExecState, emptyExecState]))
            (fun e2 he2 => absurd he2 (by simp [initExecState, emptyExecState]))
        obtain ⟨hw1, hw2⟩ := gWait_inv cfg handler (v :: vs) sched _ hinv1 hinv2
        obtain ⟨i, v2, hv, hfail, _⟩ := hw2 e hfe
        exact ⟨i, v2, hv, hfail⟩
  · intro cfg sched items handler hI x hx
    cases items with
    | nil => exact absurd hx (by simp [Execute, emptyExecState])
    | cons v vs =>
        have hx2 : x ∈ ((resList handler 0 (v :: vs)).take
            ((dispatchLoop cfg sched handler 0 (v :: vs)
              (initExecState cfg)).dispatched.length)).filterMap failTag := by
          obtain ⟨m, hm, hd2, hperm⟩ := dispatchLoop_tags cfg sched handler
            ExecState.errs failTag
            (fun st i r => errs_processResult cfg hI st i r)
            (fun st l => rfl) (fun st b => rfl) (fun st x2 => rfl) (fun st l d => rfl)
            (v :: vs) 0 (initExecState cfg)
          have hperm2 : List.Perm
              ((dispatchLoop cfg sched handler 0 (v :: vs) (initExecState cfg)).errs
                ++ (dispatchLoop cfg sched handler 0 (v :: vs)
                    (initExecState cfg)).pending.filterMap failTag)
              (((resList handler 0 (v :: vs)).take m).filterMap failTag) := by
            simpa [initExecState, emptyExecState] using hperm
          have hmlen : (dispatchLoop cfg sched handler 0 (v :: vs)
              (initExecState cfg)).dispatched.length = m := by
            rw [hd2]
            simp [initExecState, emptyExecState, idxSeg_length]
          rw [hmlen]
          cases habL : (dispatchLoop cfg sched handler 0 (v :: vs)
              (initExecState cfg)).limiterAbort with
          | some ie =>
              have hE := Execute_cons_abort cfg sched v vs handler ie habL
              rw [hE] at hx
              exact hperm2.subset (List.mem_append_left _ hx)
          | none =>
              have hE := Execute_cons_wait cfg sched v vs handler habL
              rw [hE] at hx
              have hgw := gWait_tags cfg ExecState.errs failTag
                (fun st i r => errs_processResult cfg hI st i r)
                (fun st l => rfl) sched
                (dispatchLoop cfg sched handler 0 (v :: vs) (initExecState cfg))
              exact hperm2.subset (hgw.subset hx)
        rw [List.mem_filterMap] at hx2
        obtain ⟨q, hqmem, htag⟩ := hx2
        have hqres : q ∈ resList handler 0 (v :: vs) := List.take_subset _ _ hqmem
        obtain ⟨k, v2, hget, heq⟩ := mem_resList handler (v :: vs) 0 q hqres
        cases hr : q.2 with
        | ok =>
            have hnone : failTag q = none := by
              unfold failTag
              rw [hr]
            rw [hnone] at htag
            exact absurd htag (by simp)
        | panicked =>
            have hnone : failTag q = none := by
              unfold failTag
              rw [hr]
            rw [hnone] at htag
            exact absurd htag (by simp)
        | fail e =>
            have hxval : x = GoErr.itemWrap q.1 e := by
              have : failTag q = some (GoErr.itemWrap q.1 e) := by
                unfold failTag
                rw [hr]
              rw [this] at htag
              exact (Option.some_injective _ htag).symm
            have hq1 : q.1 = k := by rw [heq]; simp
            have hq2 : handler k v2 = HRes.fail e := by
              have : q.2 = handler (0 + k) v2 := by rw [heq]
              rw [hr] at this
              simpa using this.symm
            refine ⟨k, e, by rw [hxval, hq1], v2, by simpa using hget, hq2⟩

/-- C10 witness: the fail-fast run returning the raw `GoErr.base 99`
originates from the failing handler at position 1; in the collect run with
failures at 2, 5, 7, the recorded entry `itemWrap 2 (base 2)` is the wrap of
the handler error at position 2. -/
theorem fail_fast_unwrapped_witness :
    (∃ i v, ([0, 1, 2, 3, 4] : List Nat).get? i = some v
      ∧ (fun i _ => if i = 1 then HRes.fail (GoErr.base 99) else HRes.ok) i v
          = HRes.fail (GoErr.base 99)) ∧
    (∃ i e, GoErr.itemWrap 2 (GoErr.base 2) = GoErr.itemWrap i e
      ∧ ∃ v, (List.range 10).get? i = some v
        ∧ (fun i _ => if i = 2 ∨ i = 5 ∨ i = 7 then HRes.fail (GoErr.base i) else HRes.ok) i v
            = HRes.fail e) :=
  ⟨fail_fast_unwrapped_spec.1 { defaultBatchConfig with Concurrency := 1 } quietSched
      [0, 1, 2, 3, 4] (fun i _ => if i = 1 then HRes.fail (GoErr.base 99) else HRes.ok)
      rfl (fun _ => rfl) (GoErr.base 99) (by rfl),
   fail_fast_unwrapped_spec.2 { defaultBatchConfig with IgnoreError := true } quietSched
      (List.range 10)
      (fun i _ => if i = 2 ∨ i = 5 ∨ i = 7 then HRes.fail (GoErr.base i) else HRes.ok)
      rfl (GoErr.itemWrap 2 (GoErr.base 2)) (by decide)⟩
